import Mathlib

/-!
Verification of the Auvia backend core against its specification.

The definitions below are a shallow embedding of the Python sources:

* `backend/app/routers/queue.py`  — playback queue operations
* `backend/app/services/music.py` — catalog store, scanner, verifier,
  path-based metadata extraction
* `backend/app/routers/search.py` — result merge / dedup
* `backend/app/services/download.py` — download task creation

Database rows are embedded as lists of records; SQLAlchemy queries
(`select ... where`) become `List.find?` / `List.filter`; autoincrement
primary keys become an explicit `next_id` counter threaded through the
state.  `scalar_one_or_none` raises when several rows match; the
embedding resolves such lookups to the first matching row, and the
theorems carry uniqueness hypotheses under which at most one row can
match, so both semantics agree there.  Machine integers are `Int` / `Nat`
(Python integers are unbounded, so no modular arithmetic is needed).
-/

/-! ## Queue engine (`backend/app/routers/queue.py`)

`QueueItem` carries the columns of the `queue` table that the queue
operations read or write (`added_at` and the `track` relationship are
never consulted by the insert/remove/reorder/advance logic).
-/

structure QueueItem where
  id : Nat
  track_id : Nat
  position : Int
  is_playing : Bool
deriving DecidableEq, Repr

/-- Queue table state: the rows plus the autoincrement counter for `id`. -/
structure QueueState where
  items : List QueueItem
  next_id : Nat
deriving DecidableEq, Repr

/-- Embeds `select(func.max(QueueItem.position))` followed by `or 0`:
SQL `MAX` over an empty table is NULL, which Python replaces by 0. -/
def maxPosition (l : List QueueItem) : Int :=
  match l.map (·.position) with
  | [] => 0
  | p :: ps => ps.foldl max p

/-- Embeds `add_to_queue` (queue.py lines 104–148), the branch where the
track is already in the catalog.  (The branches that trigger a download
and return early perform no queue mutation and are outside the model;
the 404 on an unknown `track_id` likewise leaves the queue untouched.)

When `play_now` is set the source executes
`update().where(QueueItem.id != queue_item.id).values(is_playing=False)`.
That filter is built *before* the new row is flushed, so `queue_item.id`
is `None` and SQLAlchemy renders `QueueItem.id != None` as
`id IS NOT NULL` — which matches every row, including the new row itself
(autoflush inserts it just before the update statement runs).  The
embedding therefore clears `is_playing` on all rows, the new one
included. -/
def add_to_queue (s : QueueState) (trackId : Nat) (play_now play_next : Bool) : QueueState :=
  let max_pos := maxPosition s.items
  let (base, position) :=
    if play_next then
      match s.items.find? (fun i => i.is_playing) with
      | some current =>
          (s.items.map (fun i =>
             if current.position < i.position then
               { i with position := i.position + 1 } else i),
           current.position + 1)
      | none => (s.items, 1)
    else (s.items, max_pos + 1)
  let queue_item : QueueItem :=
    { id := s.next_id, track_id := trackId, position := position, is_playing := play_now }
  let items := base ++ [queue_item]
  let items :=
    if play_now then items.map (fun i => { i with is_playing := false }) else items
  { items := items, next_id := s.next_id + 1 }

/-- Embeds `remove_from_queue` (queue.py lines 223–244): delete the row
with the given id (404 → no change if absent), then decrement the
position of every row whose position was greater. -/
def remove_from_queue (s : QueueState) (item_id : Nat) : QueueState :=
  match s.items.find? (fun i => i.id = item_id) with
  | none => s
  | some item =>
      let removed_position := item.position
      let items :=
        (s.items.filter (fun i => ¬ i.id = item_id)).map (fun i =>
          if removed_position < i.position then
            { i with position := i.position - 1 } else i)
      { s with items := items }

/-- Embeds `reorder_queue` (queue.py lines 247–288): shift the rows
strictly between the old and the new position (the moved row's own
position `old` lies outside both `where` ranges), then assign
`new_position` to the moved row. -/
def reorder_queue (s : QueueState) (item_id : Nat) (new_position : Int) : QueueState :=
  match s.items.find? (fun i => i.id = item_id) with
  | none => s
  | some item =>
      let old_position := item.position
      let shifted :=
        if old_position < new_position then
          s.items.map (fun i =>
            if old_position < i.position ∧ i.position ≤ new_position then
              { i with position := i.position - 1 } else i)
        else
          s.items.map (fun i =>
            if new_position ≤ i.position ∧ i.position < old_position then
              { i with position := i.position + 1 } else i)
      { s with items :=
          shifted.map (fun i =>
            if i.id = item_id then { i with position := new_position } else i) }

/-- Embeds `select(QueueItem).where(position < c).order_by(position.desc()).limit(1)`:
the row with the greatest position strictly below `c` (first such row on
ties; positions are distinct in every invariant-satisfying state). -/
def maxBelow (l : List QueueItem) (c : Int) : Option QueueItem :=
  (l.filter (fun i => i.position < c)).foldl
    (fun acc i =>
      match acc with
      | none => some i
      | some j => if j.position < i.position then some i else some j)
    none

/-- Embeds `play_previous` (queue.py lines 333–364): clear the playing
flag of the current row if any (taking its position as reference,
otherwise `max position + 1`), then set the flag on the closest row
strictly below and return its `track_id`; `none` models the
"Beginning of queue" reply. -/
def play_previous (s : QueueState) : QueueState × Option Nat :=
  let (items0, current_pos) : List QueueItem × Int :=
    match s.items.find? (fun i => i.is_playing) with
    | some current =>
        (s.items.map (fun i =>
           if i.id = current.id then { i with is_playing := false } else i),
         current.position)
    | none => (s.items, maxPosition s.items + 1)
  match maxBelow items0 current_pos with
  | some prev =>
      ({ s with items :=
           items0.map (fun i =>
             if i.id = prev.id then { i with is_playing := true } else i) },
       some prev.track_id)
  | none => ({ s with items := items0 }, none)

/-! ### Queue invariant -/

/-- Positions form a contiguous `1..N` permutation (spec §3, QueueItem). -/
def contiguousPositions (l : List QueueItem) : Prop :=
  (l.map (·.position)).Perm ((List.range' 1 l.length).map (Int.ofNat ·))

instance : DecidablePred contiguousPositions := fun l => by
  unfold contiguousPositions; infer_instance

/-- At most one queue row has `is_playing = true` (spec §3, QueueItem). -/
def atMostOnePlaying (l : List QueueItem) : Prop :=
  l.countP (fun i => i.is_playing) ≤ 1

instance : DecidablePred atMostOnePlaying := fun l => by
  unfold atMostOnePlaying; infer_instance

/-- The queue-table invariant: contiguous positions, a single playing
flag, and well-formed primary keys. -/
structure QueueInvariant (s : QueueState) : Prop where
  contig : contiguousPositions s.items
  playing : atMostOnePlaying s.items
  ids_nodup : (s.items.map (·.id)).Nodup
  ids_bound : ∀ i ∈ s.items, i.id < s.next_id

/-- Number of rows at position `k`. -/
def pcount (l : List QueueItem) (k : Int) : Nat :=
  l.countP (fun i => i.position = k)

lemma pcount_nil (k : Int) : pcount [] k = 0 := rfl

lemma pcount_eq_count (l : List QueueItem) (k : Int) :
    pcount l k = (l.map (·.position)).count k := by
  rw [List.count_eq_countP, List.countP_map]
  exact (List.countP_congr (by intro x _; simp)).symm

lemma count_range'_ofNat (s n : Nat) (k : Int) :
    ((List.range' s n).map (Int.ofNat ·)).count k
      = if (s : Int) ≤ k ∧ k < (s : Int) + n then 1 else 0 := by
  induction n generalizing s with
  | zero =>
    simp only [List.range'_zero, List.map_nil, List.count_nil]
    split_ifs <;> omega
  | succ n ih =>
    rw [List.range'_succ, List.map_cons, List.count_cons, ih]
    split_ifs <;> simp_all <;> omega

/-- Contiguity, characterised by per-position counts. -/
lemma contiguous_iff_pcount (l : List QueueItem) :
    contiguousPositions l ↔
      ∀ k : Int, pcount l k = if 1 ≤ k ∧ k ≤ (l.length : Int) then 1 else 0 := by
  unfold contiguousPositions
  rw [List.perm_iff_count]
  constructor
  · intro h k
    rw [pcount_eq_count, h k, count_range'_ofNat]
    split_ifs <;> omega
  · intro h k
    rw [← pcount_eq_count, h k, count_range'_ofNat]
    split_ifs <;> omega

lemma pcount_shift_up_after (c k : Int) (l : List QueueItem) :
    pcount (l.map fun i =>
        if c < i.position then { i with position := i.position + 1 } else i) k
      = if k ≤ c then pcount l k else if k = c + 1 then 0 else pcount l (k - 1) := by
  induction l with
  | nil => simp [pcount]
  | cons a l ih =>
    have ha : (if c < a.position then { a with position := a.position + 1 } else a).position
        = if c < a.position then a.position + 1 else a.position := by
      by_cases h : c < a.position <;> simp [h]
    simp only [pcount, List.map_cons, List.countP_cons, decide_eq_true_eq] at ih ⊢
    rw [ha, ih]
    split_ifs <;> omega

lemma pcount_shift_down_after (c k : Int) (l : List QueueItem) :
    pcount (l.map fun i =>
        if c < i.position then { i with position := i.position - 1 } else i) k
      = if k < c then pcount l k
        else if k = c then pcount l c + pcount l (c + 1)
        else pcount l (k + 1) := by
  induction l with
  | nil => simp [pcount]
  | cons a l ih =>
    have ha : (if c < a.position then { a with position := a.position - 1 } else a).position
        = if c < a.position then a.position - 1 else a.position := by
      by_cases h : c < a.position <;> simp [h]
    simp only [pcount, List.map_cons, List.countP_cons, decide_eq_true_eq] at ih ⊢
    rw [ha, ih]
    split_ifs <;> omega

lemma pcount_shift_down_range (a b k : Int) (l : List QueueItem) :
    pcount (l.map fun i =>
        if a < i.position ∧ i.position ≤ b then { i with position := i.position - 1 } else i) k
      = (if a ≤ k ∧ k + 1 ≤ b then pcount l (k + 1) else 0)
        + (if a < k ∧ k ≤ b then 0 else pcount l k) := by
  induction l with
  | nil => simp [pcount]
  | cons x l ih =>
    have hx : (if a < x.position ∧ x.position ≤ b then
          { x with position := x.position - 1 } else x).position
        = if a < x.position ∧ x.position ≤ b then x.position - 1 else x.position := by
      by_cases h : a < x.position ∧ x.position ≤ b <;> simp [h]
    simp only [pcount, List.map_cons, List.countP_cons, decide_eq_true_eq] at ih ⊢
    rw [hx, ih]
    split_ifs <;> omega

lemma pcount_shift_up_range (a b k : Int) (l : List QueueItem) :
    pcount (l.map fun i =>
        if a ≤ i.position ∧ i.position < b then { i with position := i.position + 1 } else i) k
      = (if a + 1 ≤ k ∧ k ≤ b then pcount l (k - 1) else 0)
        + (if a ≤ k ∧ k < b then 0 else pcount l k) := by
  induction l with
  | nil => simp [pcount]
  | cons x l ih =>
    have hx : (if a ≤ x.position ∧ x.position < b then
          { x with position := x.position + 1 } else x).position
        = if a ≤ x.position ∧ x.position < b then x.position + 1 else x.position := by
      by_cases h : a ≤ x.position ∧ x.position < b <;> simp [h]
    simp only [pcount, List.map_cons, List.countP_cons, decide_eq_true_eq] at ih ⊢
    rw [hx, ih]
    split_ifs <;> omega

lemma pcount_append (l₁ l₂ : List QueueItem) (k : Int) :
    pcount (l₁ ++ l₂) k = pcount l₁ k + pcount l₂ k :=
  List.countP_append _ _ _

lemma pcount_singleton (x : QueueItem) (k : Int) :
    pcount [x] k = if x.position = k then 1 else 0 := by
  simp [pcount, List.countP_cons]

/-- Counting a field-respecting predicate is invariant under a map that
preserves that field. -/
lemma countP_map_eq (f : QueueItem → QueueItem) (q : QueueItem → Bool)
    (l : List QueueItem) (h : ∀ i, q (f i) = q i) :
    (l.map f).countP q = l.countP q := by
  rw [List.countP_map]
  exact List.countP_congr (fun x _ => by simp [Function.comp, h])

lemma map_field_eq {β : Type} (f : QueueItem → QueueItem) (g : QueueItem → β)
    (l : List QueueItem) (h : ∀ i, g (f i) = g i) :
    (l.map f).map g = l.map g := by
  simp only [List.map_map]
  exact List.map_congr_left (fun a _ => h a)

/-- A row of `l` whose id occurs in a duplicate-free id list is the only
row with that id. -/
lemma id_unique_head (a : QueueItem) (l : List QueueItem) (tid : Nat)
    (hnd : ¬ a.id ∈ l.map (·.id)) (hid : a.id = tid) :
    ∀ i ∈ l, ¬ i.id = tid := by
  intro i hi hcontr
  apply hnd
  have hmem : i.id ∈ l.map (·.id) := List.mem_map_of_mem _ hi
  rwa [hcontr, ← hid] at hmem

lemma id_unique_tail (a : QueueItem) (l : List QueueItem) (tid : Nat) (x : QueueItem)
    (hnd : ¬ a.id ∈ l.map (·.id)) (hx : x ∈ l) (hid : x.id = tid) :
    ¬ a.id = tid := by
  intro hcontr
  apply hnd
  have hmem : x.id ∈ l.map (·.id) := List.mem_map_of_mem _ hx
  rwa [hid, ← hcontr] at hmem

/-- Replacing the position of the unique row with id `tid` rewrites one
count into another (stated additively to avoid `Nat` truncation). -/
lemma pcount_set_position (l : List QueueItem) (tid : Nat) (v k : Int)
    (hnd : (l.map (·.id)).Nodup) (x : QueueItem) (hx : x ∈ l) (hid : x.id = tid) :
    pcount (l.map fun i => if i.id = tid then { i with position := v } else i) k
      + (if x.position = k then 1 else 0)
      = pcount l k + (if v = k then 1 else 0) := by
  induction l with
  | nil => cases hx
  | cons a l ih =>
    simp only [List.map_cons, List.nodup_cons] at hnd
    rcases List.mem_cons.mp hx with rfl | hxl
    · have hmap : l.map (fun i => if i.id = tid then { i with position := v } else i) = l := by
        have := List.map_congr_left (l := l)
          (f := fun i => if i.id = tid then { i with position := v } else i) (g := id)
          (fun i hi => if_neg (id_unique_head x l tid hnd.1 hid i hi))
        simpa using this
      simp only [pcount, List.map_cons, List.countP_cons, hmap, if_pos hid,
        decide_eq_true_eq]
      omega
    · have ha : ¬ a.id = tid := id_unique_tail a l tid x hnd.1 hxl hid
      have := ih hnd.2 hxl
      simp only [pcount, List.map_cons, List.countP_cons, if_neg ha,
        decide_eq_true_eq] at this ⊢
      omega

/-- Deleting the unique row with id `tid` removes exactly its position
from the counts. -/
lemma pcount_erase_id (l : List QueueItem) (tid : Nat) (k : Int)
    (hnd : (l.map (·.id)).Nodup) (x : QueueItem) (hx : x ∈ l) (hid : x.id = tid) :
    pcount (l.filter fun i => ¬ i.id = tid) k + (if x.position = k then 1 else 0)
      = pcount l k := by
  induction l with
  | nil => cases hx
  | cons a l ih =>
    simp only [List.map_cons, List.nodup_cons] at hnd
    rcases List.mem_cons.mp hx with rfl | hxl
    · have hpx : ¬ ((fun i => decide ¬ i.id = tid) x = true) := by simp [hid]
      have hfilter : l.filter (fun i => ¬ i.id = tid) = l :=
        List.filter_eq_self.mpr
          (fun i hi => by simpa using id_unique_head x l tid hnd.1 hid i hi)
      rw [List.filter_cons_of_neg (p := fun (i : QueueItem) => decide ¬ i.id = tid) hpx, hfilter]
      simp only [pcount, List.countP_cons, decide_eq_true_eq]
    · have ha : ¬ a.id = tid := id_unique_tail a l tid x hnd.1 hxl hid
      have hpa : ((fun i => decide ¬ i.id = tid) a = true) := by simpa using ha
      have := ih hnd.2 hxl
      rw [List.filter_cons_of_pos (p := fun (i : QueueItem) => decide ¬ i.id = tid) hpa]
      simp only [pcount, List.countP_cons, decide_eq_true_eq] at this ⊢
      omega

lemma length_erase_id (l : List QueueItem) (tid : Nat)
    (hnd : (l.map (·.id)).Nodup) (x : QueueItem) (hx : x ∈ l) (hid : x.id = tid) :
    (l.filter fun i => ¬ i.id = tid).length + 1 = l.length := by
  induction l with
  | nil => cases hx
  | cons a l ih =>
    simp only [List.map_cons, List.nodup_cons] at hnd
    rcases List.mem_cons.mp hx with rfl | hxl
    · have hpx : ¬ ((fun i => decide ¬ i.id = tid) x = true) := by simp [hid]
      have hfilter : l.filter (fun i => ¬ i.id = tid) = l :=
        List.filter_eq_self.mpr
          (fun i hi => by simpa using id_unique_head x l tid hnd.1 hid i hi)
      rw [List.filter_cons_of_neg (p := fun (i : QueueItem) => decide ¬ i.id = tid) hpx, hfilter]
      simp
    · have ha : ¬ a.id = tid := id_unique_tail a l tid x hnd.1 hxl hid
      have hpa : ((fun i => decide ¬ i.id = tid) a = true) := by simpa using ha
      have := ih hnd.2 hxl
      rw [List.filter_cons_of_pos (p := fun (i : QueueItem) => decide ¬ i.id = tid) hpa]
      simp only [List.length_cons]
      omega

lemma foldl_max_le (p : Int) (ps : List Int) :
    p ≤ ps.foldl max p ∧ ∀ x ∈ ps, x ≤ ps.foldl max p := by
  induction ps generalizing p with
  | nil => simp
  | cons a ps ih =>
    refine ⟨le_trans (le_max_left p a) (ih (max p a)).1, ?_⟩
    intro x hx
    rcases List.mem_cons.mp hx with rfl | hxs
    · exact le_trans (le_max_right p x) (ih (max p x)).1
    · exact (ih (max p a)).2 x hxs

lemma foldl_max_mem (p : Int) (ps : List Int) :
    ps.foldl max p = p ∨ ps.foldl max p ∈ ps := by
  induction ps generalizing p with
  | nil => exact Or.inl rfl
  | cons a ps ih =>
    rw [List.foldl_cons]
    rcases ih (max p a) with h | h
    · rcases max_choice p a with hc | hc
      · exact Or.inl (by rw [h, hc])
      · exact Or.inr (by rw [h, hc]; exact List.mem_cons_self a ps)
    · exact Or.inr (List.mem_cons_of_mem _ h)

lemma maxPosition_spec (l : List QueueItem) :
    (∀ i ∈ l, i.position ≤ maxPosition l)
      ∧ (l = [] ∨ maxPosition l ∈ l.map (·.position)) := by
  cases l with
  | nil => simp
  | cons a l =>
    constructor
    · intro i hi
      rcases List.mem_cons.mp hi with rfl | hil
      · exact (foldl_max_le i.position (l.map (·.position))).1
      · exact (foldl_max_le a.position (l.map (·.position))).2 _
          (List.mem_map_of_mem _ hil)
    · refine Or.inr ?_
      rcases foldl_max_mem a.position (l.map (·.position)) with h | h
      · simp [maxPosition, h]
      · simpa [maxPosition] using List.mem_cons_of_mem _ h

lemma position_mem_bounds (l : List QueueItem) (h : contiguousPositions l) :
    ∀ i ∈ l, 1 ≤ i.position ∧ i.position ≤ (l.length : Int) := by
  intro i hi
  have hmem : i.position ∈ (List.range' 1 l.length).map (Int.ofNat ·) :=
    h.mem_iff.mp (List.mem_map_of_mem _ hi)
  rcases List.mem_map.mp hmem with ⟨m, hm, hofNat⟩
  rw [List.mem_range'_1] at hm
  have hpos : (m : Int) = i.position := by simpa using hofNat
  omega

lemma maxPosition_contig (l : List QueueItem) (h : contiguousPositions l) :
    maxPosition l = (l.length : Int) := by
  cases hl : l with
  | nil => rfl
  | cons a t =>
    subst hl
    apply le_antisymm
    · rcases (maxPosition_spec (a :: t)).2 with habs | hmem
      · cases habs
      · rcases List.mem_map.mp hmem with ⟨i, hi, hpos⟩
        have := position_mem_bounds _ h i hi
        omega
    · have hNmem : ((a :: t).length : Int) ∈ ((List.range' 1 (a :: t).length).map (Int.ofNat ·)) := by
        refine List.mem_map.mpr ⟨(a :: t).length, ?_, rfl⟩
        rw [List.mem_range'_1]
        simp
      have : ((a :: t).length : Int) ∈ (a :: t).map (·.position) := h.symm.mem_iff.mp hNmem
      rcases List.mem_map.mp this with ⟨i, hi, hpos⟩
      calc ((a :: t).length : Int) = i.position := hpos.symm
        _ ≤ maxPosition (a :: t) := (maxPosition_spec (a :: t)).1 i hi

/-- A position-preserving row map keeps contiguity. -/
lemma contig_map_preserve (f : QueueItem → QueueItem)
    (hf : ∀ i, (f i).position = i.position) (l : List QueueItem)
    (h : contiguousPositions l) : contiguousPositions (l.map f) := by
  unfold contiguousPositions at *
  rw [map_field_eq f (·.position) l hf, List.length_map]
  exact h

/-- Appending a row at position `N + 1` keeps contiguity. -/
lemma contig_append_last (l : List QueueItem) (h : contiguousPositions l)
    (x : QueueItem) (hx : x.position = (l.length : Int) + 1) :
    contiguousPositions (l ++ [x]) := by
  rw [contiguous_iff_pcount] at h ⊢
  intro k
  rw [pcount_append, pcount_singleton, h k, hx]
  simp only [List.length_append, List.length_cons, List.length_nil]
  split_ifs <;> omega

/-- The `play_next` insertion: shift all rows above `c` up by one, then
append a row at `c + 1`; contiguity is preserved when `1 ≤ c ≤ N`. -/
lemma contig_insert_after (l : List QueueItem) (h : contiguousPositions l)
    (c : Int) (hc1 : 1 ≤ c) (hc2 : c ≤ (l.length : Int)) (x : QueueItem)
    (hx : x.position = c + 1) :
    contiguousPositions
      ((l.map fun i => if c < i.position then { i with position := i.position + 1 } else i)
        ++ [x]) := by
  rw [contiguous_iff_pcount] at h ⊢
  intro k
  rw [pcount_append, pcount_singleton, pcount_shift_up_after, hx]
  have h1 := h k
  have h2 := h (k - 1)
  simp only [List.length_append, List.length_map, List.length_cons, List.length_nil]
  split_ifs at * <;> omega

/-- Removing the unique row at position `c` and closing the gap keeps
contiguity. -/
lemma contig_remove (l : List QueueItem) (h : contiguousPositions l)
    (tid : Nat) (hnd : (l.map (·.id)).Nodup)
    (x : QueueItem) (hx : x ∈ l) (hid : x.id = tid) :
    contiguousPositions
      ((l.filter fun i => ¬ i.id = tid).map fun i =>
        if x.position < i.position then { i with position := i.position - 1 } else i) := by
  have hbounds := position_mem_bounds l h x hx
  rw [contiguous_iff_pcount] at h ⊢
  have hlen : ((l.filter fun i => ¬ i.id = tid).length : Int) = (l.length : Int) - 1 := by
    have := length_erase_id l tid hnd x hx hid
    omega
  have hF : ∀ j : Int, pcount (l.filter fun i => ¬ i.id = tid) j
      = if 1 ≤ j ∧ j ≤ (l.length : Int) ∧ ¬ j = x.position then 1 else 0 := by
    intro j
    have e := pcount_erase_id l tid j hnd x hx hid
    have hj := h j
    split_ifs at * <;> omega
  intro k
  rw [List.length_map, pcount_shift_down_after, hF k, hF x.position, hF (x.position + 1),
    hF (k + 1)]
  split_ifs <;> omega

/-- The "moving down" branch of reorder keeps contiguity when the target
position is in range. -/
lemma contig_reorder_down (l : List QueueItem) (h : contiguousPositions l)
    (tid : Nat) (hnd : (l.map (·.id)).Nodup)
    (x : QueueItem) (hx : x ∈ l) (hid : x.id = tid) (newPos : Int)
    (hn1 : 1 ≤ newPos) (hn2 : newPos ≤ (l.length : Int))
    (hlt : x.position < newPos) :
    contiguousPositions
      ((l.map fun i =>
          if x.position < i.position ∧ i.position ≤ newPos then
            { i with position := i.position - 1 } else i).map
        fun i => if i.id = tid then { i with position := newPos } else i) := by
  have hbounds := position_mem_bounds l h x hx
  have hgpres : ∀ i : QueueItem,
      ((fun i => if x.position < i.position ∧ i.position ≤ newPos then
        { i with position := i.position - 1 } else i) i).id = i.id := by
    intro i
    by_cases hc : x.position < i.position ∧ i.position ≤ newPos <;> simp [hc]
  have hgx : (fun i => if x.position < i.position ∧ i.position ≤ newPos then
      { i with position := i.position - 1 } else i) x = x := by
    have : ¬ (x.position < x.position ∧ x.position ≤ newPos) := by omega
    simp [this]
  have hndS : ((l.map fun i =>
      if x.position < i.position ∧ i.position ≤ newPos then
        { i with position := i.position - 1 } else i).map (·.id)).Nodup := by
    rw [map_field_eq _ (·.id) l hgpres]
    exact hnd
  have hxS : x ∈ l.map fun i =>
      if x.position < i.position ∧ i.position ≤ newPos then
        { i with position := i.position - 1 } else i := by
    have := List.mem_map_of_mem (fun i =>
      if x.position < i.position ∧ i.position ≤ newPos then
        { i with position := i.position - 1 } else i) hx
    rwa [hgx] at this
  rw [contiguous_iff_pcount] at h ⊢
  intro k
  have hset := pcount_set_position _ tid newPos k hndS x hxS hid
  have hsr := pcount_shift_down_range x.position newPos k l
  have h1 := h k
  have h2 := h (k + 1)
  simp only [List.length_map]
  clear h hnd hxS hndS hgx hgpres hx
  split_ifs at * <;> omega

/-- The "moving up" branch of reorder keeps contiguity when the target
position is in range. -/
lemma contig_reorder_up (l : List QueueItem) (h : contiguousPositions l)
    (tid : Nat) (hnd : (l.map (·.id)).Nodup)
    (x : QueueItem) (hx : x ∈ l) (hid : x.id = tid) (newPos : Int)
    (hn1 : 1 ≤ newPos) (hn2 : newPos ≤ (l.length : Int))
    (hge : newPos ≤ x.position) :
    contiguousPositions
      ((l.map fun i =>
          if newPos ≤ i.position ∧ i.position < x.position then
            { i with position := i.position + 1 } else i).map
        fun i => if i.id = tid then { i with position := newPos } else i) := by
  have hbounds := position_mem_bounds l h x hx
  have hgpres : ∀ i : QueueItem,
      ((fun i => if newPos ≤ i.position ∧ i.position < x.position then
        { i with position := i.position + 1 } else i) i).id = i.id := by
    intro i
    by_cases hc : newPos ≤ i.position ∧ i.position < x.position <;> simp [hc]
  have hgx : (fun i => if newPos ≤ i.position ∧ i.position < x.position then
      { i with position := i.position + 1 } else i) x = x := by
    have : ¬ (newPos ≤ x.position ∧ x.position < x.position) := by omega
    simp [this]
  have hndS : ((l.map fun i =>
      if newPos ≤ i.position ∧ i.position < x.position then
        { i with position := i.position + 1 } else i).map (·.id)).Nodup := by
    rw [map_field_eq _ (·.id) l hgpres]
    exact hnd
  have hxS : x ∈ l.map fun i =>
      if newPos ≤ i.position ∧ i.position < x.position then
        { i with position := i.position + 1 } else i := by
    have := List.mem_map_of_mem (fun i =>
      if newPos ≤ i.position ∧ i.position < x.position then
        { i with position := i.position + 1 } else i) hx
    rwa [hgx] at this
  rw [contiguous_iff_pcount] at h ⊢
  intro k
  have hset := pcount_set_position _ tid newPos k hndS x hxS hid
  have hsr := pcount_shift_up_range newPos x.position k l
  have h1 := h k
  have h2 := h (k - 1)
  simp only [List.length_map]
  clear h hnd hxS hndS hgx hgpres hx
  split_ifs at * <;> omega

lemma contig_nil : contiguousPositions [] := by decide

lemma invariant_of_parts (items : List QueueItem) (nid : Nat)
    (h1 : contiguousPositions items)
    (h2 : items.countP (fun i => i.is_playing) ≤ 1)
    (h3 : (items.map (·.id)).Nodup)
    (h4 : ∀ i ∈ items, i.id < nid) :
    QueueInvariant ⟨items, nid⟩ :=
  ⟨h1, h2, h3, h4⟩

/-- Invariant re-assembly after the optional `play_now` clear pass. -/
lemma invariant_after_clear_opt (l : List QueueItem) (nid : Nat) (pn : Bool)
    (hC : contiguousPositions l)
    (hP : pn = false → l.countP (fun i => i.is_playing) ≤ 1)
    (hN : (l.map (·.id)).Nodup)
    (hB : ∀ i ∈ l, i.id < nid) :
    QueueInvariant
      ⟨if pn then l.map (fun i => { i with is_playing := false }) else l, nid⟩ := by
  cases pn with
  | false => exact invariant_of_parts l nid hC (hP rfl) hN hB
  | true =>
    rw [if_pos rfl]
    apply invariant_of_parts
    · exact contig_map_preserve
        (fun i => { i with is_playing := false }) (fun i => rfl) l hC
    · rw [List.countP_map]
      have hcomp : ((fun i => i.is_playing) ∘ fun (i : QueueItem) =>
          { i with is_playing := false }) = fun _ => false := rfl
      rw [hcomp]
      simp
    · rw [map_field_eq (fun i => { i with is_playing := false }) (·.id) l (fun i => rfl)]
      exact hN
    · intro i hi
      rcases List.mem_map.mp hi with ⟨j, hj, rfl⟩
      exact hB j hj

lemma nodup_ids_append (l : List QueueItem) (x : QueueItem) (nid : Nat)
    (hN : (l.map (·.id)).Nodup) (hB : ∀ i ∈ l, i.id < nid) (hx : x.id = nid) :
    ((l ++ [x]).map (·.id)).Nodup := by
  rw [List.map_append, List.nodup_append]
  refine ⟨hN, List.nodup_singleton _, ?_⟩
  intro a ha hb
  rcases List.mem_map.mp ha with ⟨j, hj, rfl⟩
  have := hB j hj
  simp only [List.map_cons, List.map_nil, List.mem_cons, List.not_mem_nil, or_false] at hb
  omega

/-- `add_to_queue` preserves the queue invariant, provided `play_next`
is only used when some row is playing or the queue is empty (the code
inserts at position 1 *without shifting* otherwise — see the C1
counterexample). -/
theorem add_to_queue_invariant (s : QueueState) (t : Nat) (pn pnext : Bool)
    (hinv : QueueInvariant s)
    (hvalid : pnext = true → (∃ i ∈ s.items, i.is_playing = true) ∨ s.items = []) :
    QueueInvariant (add_to_queue s t pn pnext) := by
  obtain ⟨hC, hP, hN, hB⟩ := hinv
  cases pnext with
  | false =>
    have hmax : maxPosition s.items = (s.items.length : Int) := maxPosition_contig _ hC
    have heq : add_to_queue s t pn false =
        { items :=
            if pn then
              ((s.items ++ [(⟨s.next_id, t, maxPosition s.items + 1, pn⟩ : QueueItem)]).map
                fun i => { i with is_playing := false })
            else s.items ++ [(⟨s.next_id, t, maxPosition s.items + 1, pn⟩ : QueueItem)],
          next_id := s.next_id + 1 } := rfl
    rw [heq]
    apply invariant_after_clear_opt
    · exact contig_append_last _ hC _ (by simpa using hmax)
    · intro hpn
      subst hpn
      rw [List.countP_append]
      simpa using hP
    · exact nodup_ids_append _ _ _ hN hB rfl
    · intro i hi
      rcases List.mem_append.mp hi with h | h
      · exact Nat.lt_succ_of_lt (hB i h)
      · simp only [List.mem_cons, List.not_mem_nil, or_false] at h
        subst h
        exact Nat.lt_succ_self _
  | true =>
    cases hfind : s.items.find? (fun i => i.is_playing) with
    | none =>
      rcases hvalid rfl with ⟨i, hi, hplay⟩ | hempty
      · have := List.find?_eq_none.mp hfind i hi
        simp [hplay] at this
      · simp only [add_to_queue, hfind, if_true]
        rw [hempty]
        apply invariant_after_clear_opt
        · exact contig_append_last [] contig_nil _ (by simp)
        · intro hpn
          subst hpn
          simp
        · simp
        · intro i hi
          simp only [List.nil_append, List.mem_cons, List.not_mem_nil, or_false] at hi
          subst hi
          exact Nat.lt_succ_self _
    | some current =>
      have hcur_mem : current ∈ s.items := List.mem_of_find?_eq_some hfind
      have hcur_bounds := position_mem_bounds _ hC current hcur_mem
      simp only [add_to_queue, hfind, if_true]
      have hshift_id : ∀ i : QueueItem,
          ((fun i => if current.position < i.position then
            { i with position := i.position + 1 } else i) i).id = i.id := by
        intro i
        by_cases hc : current.position < i.position <;> simp [hc]
      have hshift_play : ∀ i : QueueItem,
          ((fun i => if current.position < i.position then
            { i with position := i.position + 1 } else i) i).is_playing = i.is_playing := by
        intro i
        by_cases hc : current.position < i.position <;> simp [hc]
      apply invariant_after_clear_opt
      · exact contig_insert_after _ hC _ hcur_bounds.1 hcur_bounds.2 _ rfl
      · intro hpn
        subst hpn
        rw [List.countP_append,
          countP_map_eq (fun i =>
              if current.position < i.position then
                { i with position := i.position + 1 } else i)
            (fun i => i.is_playing) s.items hshift_play]
        simpa using hP
      · apply nodup_ids_append
        · rw [map_field_eq _ (·.id) _ hshift_id]
          exact hN
        · intro i hi
          rcases List.mem_map.mp hi with ⟨j, hj, rfl⟩
          rw [hshift_id j]
          exact hB j hj
        · rfl
      · intro i hi
        rcases List.mem_append.mp hi with h | h
        · rcases List.mem_map.mp h with ⟨j, hj, rfl⟩
          rw [hshift_id j]
          exact Nat.lt_succ_of_lt (hB j hj)
        · simp only [List.mem_cons, List.not_mem_nil, or_false] at h
          subst h
          exact Nat.lt_succ_self _

lemma posmap_preserves_id (p : QueueItem → Prop) [DecidablePred p] (g : QueueItem → Int) :
    ∀ i : QueueItem, ((fun i => if p i then { i with position := g i } else i) i).id = i.id := by
  intro i
  by_cases h : p i <;> simp [h]

lemma posmap_preserves_play (p : QueueItem → Prop) [DecidablePred p] (g : QueueItem → Int) :
    ∀ i : QueueItem,
      ((fun i => if p i then { i with position := g i } else i) i).is_playing
        = i.is_playing := by
  intro i
  by_cases h : p i <;> simp [h]

lemma nodup_ids_map (f : QueueItem → QueueItem) (hf : ∀ i, (f i).id = i.id)
    (l : List QueueItem) (h : (l.map (·.id)).Nodup) : ((l.map f).map (·.id)).Nodup := by
  rw [map_field_eq f (·.id) l hf]
  exact h

lemma bound_ids_map (f : QueueItem → QueueItem) (hf : ∀ i, (f i).id = i.id)
    (l : List QueueItem) (nid : Nat) (h : ∀ i ∈ l, i.id < nid) :
    ∀ i ∈ l.map f, i.id < nid := by
  intro i hi
  rcases List.mem_map.mp hi with ⟨j, hj, rfl⟩
  rw [hf j]
  exact h j hj

/-- `remove_from_queue` preserves the queue invariant. -/
theorem remove_from_queue_invariant (s : QueueState) (iid : Nat)
    (hinv : QueueInvariant s) : QueueInvariant (remove_from_queue s iid) := by
  obtain ⟨hC, hP, hN, hB⟩ := hinv
  cases hfind : s.items.find? (fun i => i.id = iid) with
  | none =>
    simp only [remove_from_queue, hfind]
    exact ⟨hC, hP, hN, hB⟩
  | some item =>
    have hmem : item ∈ s.items := List.mem_of_find?_eq_some hfind
    have hfid : item.id = iid := by
      have := List.find?_some hfind
      simpa using this
    simp only [remove_from_queue, hfind]
    apply invariant_of_parts
    · exact contig_remove s.items hC iid hN item hmem hfid
    · rw [countP_map_eq
        (fun i => if item.position < i.position then
          { i with position := i.position - 1 } else i)
        (fun i => i.is_playing) _
        (posmap_preserves_play (fun i => item.position < i.position)
          (fun i => i.position - 1))]
      exact le_trans ((List.filter_sublist _).countP_le _) hP
    · apply nodup_ids_map _
        (posmap_preserves_id (fun i => item.position < i.position) (fun i => i.position - 1))
      exact List.Nodup.sublist (List.Sublist.map (fun (i : QueueItem) => i.id) (List.filter_sublist _)) hN
    · apply bound_ids_map _
        (posmap_preserves_id (fun i => item.position < i.position) (fun i => i.position - 1))
      intro i hi
      exact hB i (List.mem_of_mem_filter hi)

/-- `reorder_queue` preserves the queue invariant when the target
position is inside `1..N` (the code performs no bounds check — see the
C1 counterexample for what happens otherwise). -/
theorem reorder_queue_invariant (s : QueueState) (iid : Nat) (newPos : Int)
    (hinv : QueueInvariant s)
    (hvalid : ∀ i ∈ s.items, i.id = iid →
      1 ≤ newPos ∧ newPos ≤ (s.items.length : Int)) :
    QueueInvariant (reorder_queue s iid newPos) := by
  obtain ⟨hC, hP, hN, hB⟩ := hinv
  cases hfind : s.items.find? (fun i => i.id = iid) with
  | none =>
    simp only [reorder_queue, hfind]
    exact ⟨hC, hP, hN, hB⟩
  | some item =>
    have hmem : item ∈ s.items := List.mem_of_find?_eq_some hfind
    have hfid : item.id = iid := by
      have := List.find?_some hfind
      simpa using this
    obtain ⟨hn1, hn2⟩ := hvalid item hmem hfid
    simp only [reorder_queue, hfind]
    by_cases hdir : item.position < newPos
    · rw [if_pos hdir]
      apply invariant_of_parts
      · exact contig_reorder_down s.items hC iid hN item hmem hfid newPos hn1 hn2 hdir
      · rw [countP_map_eq
            (fun i => if i.id = iid then { i with position := newPos } else i)
            (fun i => i.is_playing) _
            (posmap_preserves_play (fun i => i.id = iid) (fun _ => newPos)),
          countP_map_eq
            (fun i => if item.position < i.position ∧ i.position ≤ newPos then
              { i with position := i.position - 1 } else i)
            (fun i => i.is_playing) _
            (posmap_preserves_play
              (fun i => item.position < i.position ∧ i.position ≤ newPos)
              (fun i => i.position - 1))]
        exact hP
      · apply nodup_ids_map _ (posmap_preserves_id (fun i => i.id = iid) (fun _ => newPos))
        exact nodup_ids_map _
          (posmap_preserves_id
            (fun i => item.position < i.position ∧ i.position ≤ newPos)
            (fun i => i.position - 1)) _ hN
      · apply bound_ids_map _ (posmap_preserves_id (fun i => i.id = iid) (fun _ => newPos))
        exact bound_ids_map _
          (posmap_preserves_id
            (fun i => item.position < i.position ∧ i.position ≤ newPos)
            (fun i => i.position - 1)) _ _ hB
    · rw [if_neg hdir]
      have hge : newPos ≤ item.position := le_of_not_lt hdir
      apply invariant_of_parts
      · exact contig_reorder_up s.items hC iid hN item hmem hfid newPos hn1 hn2 hge
      · rw [countP_map_eq
            (fun i => if i.id = iid then { i with position := newPos } else i)
            (fun i => i.is_playing) _
            (posmap_preserves_play (fun i => i.id = iid) (fun _ => newPos)),
          countP_map_eq
            (fun i => if newPos ≤ i.position ∧ i.position < item.position then
              { i with position := i.position + 1 } else i)
            (fun i => i.is_playing) _
            (posmap_preserves_play
              (fun i => newPos ≤ i.position ∧ i.position < item.position)
              (fun i => i.position + 1))]
        exact hP
      · apply nodup_ids_map _ (posmap_preserves_id (fun i => i.id = iid) (fun _ => newPos))
        exact nodup_ids_map _
          (posmap_preserves_id
            (fun i => newPos ≤ i.position ∧ i.position < item.position)
            (fun i => i.position + 1)) _ hN
      · apply bound_ids_map _ (posmap_preserves_id (fun i => i.id = iid) (fun _ => newPos))
        exact bound_ids_map _
          (posmap_preserves_id
            (fun i => newPos ≤ i.position ∧ i.position < item.position)
            (fun i => i.position + 1)) _ _ hB

/-! ### Sequences of queue operations (claim C1) -/

/-- One queue-mutating API call. -/
inductive QueueOp where
  | add (trackId : Nat) (play_now play_next : Bool)
  | remove (item_id : Nat)
  | reorder (item_id : Nat) (new_position : Int)
deriving DecidableEq, Repr

def applyOp (s : QueueState) : QueueOp → QueueState
  | .add t pn pnext => add_to_queue s t pn pnext
  | .remove iid => remove_from_queue s iid
  | .reorder iid p => reorder_queue s iid p

def applyOps (s : QueueState) : List QueueOp → QueueState
  | [] => s
  | op :: ops => applyOps (applyOp s op) ops

/-- Side conditions under which the code preserves the invariant:
`play_next` only fires when something is playing or the queue is empty,
and `reorder` only targets in-range positions.  `remove` needs nothing. -/
def ValidOp (s : QueueState) : QueueOp → Prop
  | .add _ _ pnext => pnext = true → (∃ i ∈ s.items, i.is_playing = true) ∨ s.items = []
  | .remove _ => True
  | .reorder iid p => ∀ i ∈ s.items, i.id = iid → 1 ≤ p ∧ p ≤ (s.items.length : Int)

def ValidOps (s : QueueState) : List QueueOp → Prop
  | [] => True
  | op :: ops => ValidOp s op ∧ ValidOps (applyOp s op) ops

instance (s : QueueState) (op : QueueOp) : Decidable (ValidOp s op) := by
  cases op <;> simp only [ValidOp] <;> infer_instance

def decValidOps : (s : QueueState) → (ops : List QueueOp) → Decidable (ValidOps s ops)
  | _, [] => isTrue trivial
  | s, op :: ops =>
    @instDecidableAnd _ _ (inferInstance) (decValidOps (applyOp s op) ops)

instance (s : QueueState) (ops : List QueueOp) : Decidable (ValidOps s ops) :=
  decValidOps s ops

theorem applyOps_invariant (ops : List QueueOp) (s : QueueState)
    (hinv : QueueInvariant s) (hvalid : ValidOps s ops) :
    QueueInvariant (applyOps s ops) := by
  induction ops generalizing s with
  | nil => exact hinv
  | cons op ops ih =>
    obtain ⟨h1, h2⟩ := hvalid
    refine ih (applyOp s op) ?_ h2
    cases op with
    | add t pn pnext => exact add_to_queue_invariant s t pn pnext hinv h1
    | remove iid => exact remove_from_queue_invariant s iid hinv
    | reorder iid p => exact reorder_queue_invariant s iid p hinv h1

/-- C1 — counterexample.  The claim as stated fails on the code for the
two situations it singles out: (a) `reorder_queue` with an out-of-range
`new_position` (a queue `[{position 1}]` reordered to position 3 ends
with positions `{3}`, not `{1}`); (b) `add_to_queue` with `play_next`
when no row is playing and the queue is non-empty (the code inserts at
position 1 *without shifting*, leaving two rows at position 1). -/
theorem C1_queue_invariant_counterexample :
    ¬ contiguousPositions
        (reorder_queue (add_to_queue ⟨[], 0⟩ 5 false false) 0 3).items
    ∧ ¬ contiguousPositions
        (add_to_queue (add_to_queue ⟨[], 0⟩ 5 false false) 6 false true).items := by
  decide

/-- C1 (amended) — for every sequence of add/remove/reorder operations
starting from an invariant-satisfying queue, in which every `reorder`
that targets an existing row uses a `new_position` within `1..N` and
every `play_next` add happens while some row is playing or the queue is
empty, the resulting positions form a contiguous `1..N` permutation and
at most one row has `is_playing = true`. -/
theorem C1_queue_invariant (s : QueueState) (ops : List QueueOp)
    (hinv : QueueInvariant s) (hvalid : ValidOps s ops) :
    contiguousPositions (applyOps s ops).items
      ∧ atMostOnePlaying (applyOps s ops).items := by
  have h := applyOps_invariant ops s hinv hvalid
  exact ⟨h.contig, h.playing⟩

def c1WitnessOps : List QueueOp :=
  [.add 4 false true, .add 5 false false, .add 6 true false, .reorder 0 3, .remove 1]

/-- C1 — witness: a concrete operation sequence satisfying the
hypotheses, run from the empty queue. -/
theorem C1_queue_invariant_witness :
    QueueInvariant ⟨[], 0⟩ ∧ ValidOps ⟨[], 0⟩ c1WitnessOps ∧
      (contiguousPositions (applyOps ⟨[], 0⟩ c1WitnessOps).items
        ∧ atMostOnePlaying (applyOps ⟨[], 0⟩ c1WitnessOps).items) :=
  ⟨⟨by decide, by decide, by decide, by decide⟩, by decide,
    C1_queue_invariant ⟨[], 0⟩ c1WitnessOps
      ⟨by decide, by decide, by decide, by decide⟩ (by decide)⟩

/-- C6 — evaluation at the failing input.  Adding track 9 with
`play_now = true` to a one-row queue leaves *no* row playing: the
`update().where(QueueItem.id != queue_item.id)` filter was built while
`queue_item.id` was still `None`, SQLAlchemy renders it as
`id IS NOT NULL`, and the autoflushed new row matches it too, so the
clear pass also clears the row just inserted. -/
theorem C6_play_now_failing_input :
    (add_to_queue ⟨[⟨0, 5, 1, false⟩], 1⟩ 9 true false).items
      = [⟨0, 5, 1, false⟩, ⟨1, 9, 2, false⟩]
    ∧ (add_to_queue ⟨[⟨0, 5, 1, false⟩], 1⟩ 9 true false).items.countP
        (fun i => i.is_playing) = 0 := by
  decide

/-! ### `play_previous` with no current row (claim C10) -/

lemma maxBelow_fold_aux (l : List QueueItem) (acc : QueueItem) :
    ∃ m, l.foldl
        (fun acc i =>
          match acc with
          | none => some i
          | some j => if j.position < i.position then some i else some j)
        (some acc) = some m
      ∧ (m = acc ∨ m ∈ l) ∧ acc.position ≤ m.position
      ∧ ∀ j ∈ l, j.position ≤ m.position := by
  induction l generalizing acc with
  | nil => exact ⟨acc, rfl, Or.inl rfl, le_refl _, by simp⟩
  | cons i l ih =>
    by_cases hlt : acc.position < i.position
    · obtain ⟨m, hm, hmem, hle, hmax⟩ := ih i
      refine ⟨m, ?_, ?_, le_of_lt (lt_of_lt_of_le hlt hle), ?_⟩
      · simpa [List.foldl_cons, hlt] using hm
      · rcases hmem with rfl | h
        · exact Or.inr (List.mem_cons_self _ _)
        · exact Or.inr (List.mem_cons_of_mem _ h)
      · intro j hj
        rcases List.mem_cons.mp hj with rfl | hjl
        · exact hle
        · exact hmax j hjl
    · obtain ⟨m, hm, hmem, hle, hmax⟩ := ih acc
      refine ⟨m, ?_, hmem.imp id (List.mem_cons_of_mem _), hle, ?_⟩
      · simpa [List.foldl_cons, hlt] using hm
      · intro j hj
        rcases List.mem_cons.mp hj with rfl | hjl
        · exact le_trans (le_of_not_lt hlt) hle
        · exact hmax j hjl

/-- When every row is strictly below the cutoff, `maxBelow` returns the
row of maximum position. -/
lemma maxBelow_all (l : List QueueItem) (c : Int)
    (hlt : ∀ i ∈ l, i.position < c) (hne : l ≠ []) :
    ∃ m, maxBelow l c = some m ∧ m ∈ l ∧ ∀ j ∈ l, j.position ≤ m.position := by
  have hf : l.filter (fun i => i.position < c) = l :=
    List.filter_eq_self.mpr (fun i hi => by simpa using hlt i hi)
  unfold maxBelow
  rw [hf]
  cases l with
  | nil => exact absurd rfl hne
  | cons x t =>
    rw [List.foldl_cons]
    obtain ⟨m, hm, hmem, hle, hmax⟩ := maxBelow_fold_aux t x
    refine ⟨m, hm, ?_, ?_⟩
    · rcases hmem with rfl | h
      · exact List.mem_cons_self _ _
      · exact List.mem_cons_of_mem _ h
    · intro j hj
      rcases List.mem_cons.mp hj with rfl | hjl
      · exact hle
      · exact hmax j hjl

/-- C10 — in a non-empty queue in which no row is playing,
`play_previous` marks the row with the maximum position (the last item)
as playing and returns its track id, instead of reporting
start-of-queue. -/
theorem C10_play_previous_no_current (s : QueueState)
    (hne : s.items ≠ [])
    (hnone : ∀ i ∈ s.items, i.is_playing = false) :
    ∃ last ∈ s.items,
      (∀ j ∈ s.items, j.position ≤ last.position)
      ∧ (play_previous s).2 = some last.track_id
      ∧ { last with is_playing := true } ∈ (play_previous s).1.items := by
  have hfind : s.items.find? (fun i => i.is_playing) = none :=
    List.find?_eq_none.mpr (fun x hx => by simp [hnone x hx])
  have hlt : ∀ i ∈ s.items, i.position < maxPosition s.items + 1 :=
    fun i hi => lt_of_le_of_lt ((maxPosition_spec s.items).1 i hi) (lt_add_one _)
  obtain ⟨m, hm, hmem, hmax⟩ := maxBelow_all s.items (maxPosition s.items + 1) hlt hne
  refine ⟨m, hmem, hmax, ?_, ?_⟩
  · simp only [play_previous, hfind, hm]
  · simp only [play_previous, hfind, hm]
    have heq : (fun i => if i.id = m.id then { i with is_playing := true } else i) m
        = { m with is_playing := true } := if_pos rfl
    have := List.mem_map_of_mem
      (fun i => if i.id = m.id then { i with is_playing := true } else i) hmem
    rwa [heq] at this

/-- C10 — witness: a two-row queue with nothing playing. -/
theorem C10_play_previous_no_current_witness :
    ((⟨[⟨0, 5, 1, false⟩, ⟨1, 6, 2, false⟩], 2⟩ : QueueState).items ≠ []
      ∧ ∀ i ∈ (⟨[⟨0, 5, 1, false⟩, ⟨1, 6, 2, false⟩], 2⟩ : QueueState).items,
          i.is_playing = false)
    ∧ ∃ last ∈ (⟨[⟨0, 5, 1, false⟩, ⟨1, 6, 2, false⟩], 2⟩ : QueueState).items,
        (∀ j ∈ (⟨[⟨0, 5, 1, false⟩, ⟨1, 6, 2, false⟩], 2⟩ : QueueState).items,
          j.position ≤ last.position)
        ∧ (play_previous ⟨[⟨0, 5, 1, false⟩, ⟨1, 6, 2, false⟩], 2⟩).2
            = some last.track_id
        ∧ { last with is_playing := true }
            ∈ (play_previous ⟨[⟨0, 5, 1, false⟩, ⟨1, 6, 2, false⟩], 2⟩).1.items :=
  ⟨⟨by decide, by decide⟩,
    C10_play_previous_no_current _ (by decide) (by decide)⟩

/-! ## Result merge (`backend/app/routers/search.py`)

`AlbumResponse` keeps the three fields `merge_album_results` reads
through `get_attr` (`title`, `artist_name`, `qobuz_id`) plus `id` so
that distinct local/remote rows stay distinguishable; the remaining
response fields never influence the merge.  Python's `set` of seen keys
is embedded as a list queried with membership. -/

structure AlbumResponse where
  id : Nat
  title : String
  artist_name : String
  qobuz_id : Option String
deriving DecidableEq, Repr

/-- Python truthiness of an optional string (`if qobuz_id:`):
`None` and `""` are falsy. -/
def truthy : Option String → Bool
  | none => false
  | some s => ¬ s = ""

/-- Embeds `normalize_title` (search.py lines 223–230): lowercase, drop
every character outside `\w`/`\s`, collapse whitespace runs.  `\w` is
embedded as ASCII alphanumeric or underscore, which agrees with Python
on every string considered here. -/
def normalize_title (title : String) : String :=
  if title = "" then ""
  else
    let lowered := title.data.map Char.toLower
    let normalized := lowered.filter
      (fun c => c.isAlphanum ∨ c = '_' ∨ c.isWhitespace)
    " ".intercalate
      (((normalized.splitOnP (fun c => c.isWhitespace)).filter
          (fun t => ¬ t = [])).map List.asString)

/-- The title+artist dedup key used for albums. -/
def album_merge_key (a : AlbumResponse) : String × String :=
  (normalize_title a.title, normalize_title a.artist_name)

/-- `if qobuz_id and qobuz_id in seen_qobuz_ids`. -/
def qobuzSeen (q? : Option String) (seen : List String) : Prop :=
  match q? with
  | some q => ¬ q = "" ∧ q ∈ seen
  | none => False

instance (q? : Option String) (seen : List String) : Decidable (qobuzSeen q? seen) := by
  cases q? <;> simp only [qobuzSeen] <;> infer_instance

/-- `if qobuz_id: seen_qobuz_ids.add(qobuz_id)`. -/
def addQobuz (q? : Option String) (seen : List String) : List String :=
  match q? with
  | some q => if q = "" then seen else seen ++ [q]
  | none => seen

/-- The remote loop of `merge_album_results` (search.py lines 256–272):
skip a remote album whose truthy `qobuz_id` was already seen, else skip
it when its normalized title+artist key was already seen, else emit it
and record its key (and truthy id). -/
def merge_remote_albums (seen_qobuz_ids : List String)
    (seen_title_artist : List (String × String)) :
    List AlbumResponse → List AlbumResponse
  | [] => []
  | album :: rest =>
    if qobuzSeen album.qobuz_id seen_qobuz_ids then
      merge_remote_albums seen_qobuz_ids seen_title_artist rest
    else if album_merge_key album ∈ seen_title_artist then
      merge_remote_albums seen_qobuz_ids seen_title_artist rest
    else
      album :: merge_remote_albums (addQobuz album.qobuz_id seen_qobuz_ids)
        (seen_title_artist ++ [album_merge_key album]) rest

/-- Embeds `merge_album_results` (search.py lines 240–273): all local
results first (collecting their truthy ids and their keys), then the
deduplicated remote results. -/
def merge_album_results (localResults : List AlbumResponse)
    (remote : List AlbumResponse) : List AlbumResponse :=
  let seen_qobuz_ids := localResults.foldl (fun seen a => addQobuz a.qobuz_id seen) []
  let seen_title_artist := localResults.map album_merge_key
  localResults ++ merge_remote_albums seen_qobuz_ids seen_title_artist remote

lemma merge_remote_albums_sub (rem : List AlbumResponse) :
    ∀ seenIds seenKeys, ∀ x ∈ merge_remote_albums seenIds seenKeys rem, x ∈ rem := by
  induction rem with
  | nil => intro _ _ x hx; cases hx
  | cons a rest ih =>
    intro seenIds seenKeys x hx
    unfold merge_remote_albums at hx
    split at hx
    · exact List.mem_cons_of_mem _ (ih _ _ x hx)
    · split at hx
      · exact List.mem_cons_of_mem _ (ih _ _ x hx)
      · rcases List.mem_cons.mp hx with rfl | h
        · exact List.mem_cons_self _ _
        · exact List.mem_cons_of_mem _ (ih _ _ x h)

lemma merge_remote_albums_not_seen (rem : List AlbumResponse)
    (S0 : List String) (K0 : List (String × String)) :
    ∀ seenIds seenKeys,
      (∀ a ∈ S0, a ∈ seenIds) → (∀ k ∈ K0, k ∈ seenKeys) →
      ∀ x ∈ merge_remote_albums seenIds seenKeys rem,
        ¬ qobuzSeen x.qobuz_id S0 ∧ album_merge_key x ∉ K0 := by
  induction rem with
  | nil => intro _ _ _ _ x hx; cases hx
  | cons a rest ih =>
    intro seenIds seenKeys hS hK x hx
    unfold merge_remote_albums at hx
    split at hx
    · exact ih _ _ hS hK x hx
    · split at hx
      · exact ih _ _ hS hK x hx
      · rcases List.mem_cons.mp hx with rfl | h
        · constructor
          · intro hcon
            rename_i hids _
            apply hids
            cases hq : x.qobuz_id with
            | none =>
              rw [hq] at hcon
              have hfalse : False := hcon
              exact hfalse.elim
            | some q =>
              rw [hq] at hcon
              have hcon' : ¬ q = "" ∧ q ∈ S0 := hcon
              show ¬ q = "" ∧ q ∈ seenIds
              exact ⟨hcon'.1, hS q hcon'.2⟩
          · intro hcon
            rename_i _ hkeys
            exact hkeys (hK _ hcon)
        · refine ih _ _ ?_ ?_ x h
          · intro b hb
            unfold addQobuz
            cases a.qobuz_id with
            | none => exact hS b hb
            | some q =>
              by_cases hq : q = ""
              · simp only [hq, if_pos rfl]
                exact hS b hb
              · simp only [if_neg hq]
                exact List.mem_append_left _ (hS b hb)
          · intro k hk
            exact List.mem_append_left _ (hK k hk)

lemma mem_addQobuz_foldl (loc : List AlbumResponse) (q : String) (hq : ¬ q = "") :
    ∀ init : List String,
      (q ∈ init ∨ ∃ b ∈ loc, b.qobuz_id = some q) →
      q ∈ loc.foldl (fun seen a => addQobuz a.qobuz_id seen) init := by
  induction loc with
  | nil =>
    intro init h
    rcases h with h | ⟨b, hb, _⟩
    · exact h
    · cases hb
  | cons a rest ih =>
    intro init h
    rw [List.foldl_cons]
    apply ih
    rcases h with h | ⟨b, hb, hbq⟩
    · left
      unfold addQobuz
      cases a.qobuz_id with
      | none => exact h
      | some r =>
        by_cases hr : r = ""
        · simpa [hr] using h
        · simp only [if_neg hr]
          exact List.mem_append_left _ h
    · rcases List.mem_cons.mp hb with rfl | hbr
      · left
        rw [hbq]
        unfold addQobuz
        simp [hq]
      · right
        exact ⟨b, hbr, hbq⟩

def abbeyLocal : AlbumResponse := ⟨1, "Abbey Road", "The Beatles", none⟩
def abbeyRemote : AlbumResponse := ⟨2, "ABBEY ROAD", "the beatles", none⟩
def id123Local : AlbumResponse := ⟨1, "Some Album", "Some Artist", some "123"⟩
def id123Remote : AlbumResponse := ⟨2, "Other Title", "Other Artist", some "123"⟩

/-- C4 — `merge_album_results` outputs every local result before any
remote result, and drops every remote item that matches some local item
by (truthy) external id or by normalized title+artist; in particular a
local and a remote album sharing external id "123" merge to the local
one alone, and "Abbey Road"/"The Beatles" absorbs "ABBEY ROAD"/"the
beatles". -/
theorem C4_merge_album_results :
    (∀ loc rem : List AlbumResponse, ∃ t,
        merge_album_results loc rem = loc ++ t
        ∧ (∀ x ∈ t, x ∈ rem)
        ∧ (∀ x ∈ t,
            ¬ ((∃ q, ¬ q = "" ∧ x.qobuz_id = some q ∧ ∃ b ∈ loc, b.qobuz_id = some q)
              ∨ (∃ b ∈ loc, album_merge_key b = album_merge_key x))))
    ∧ merge_album_results [id123Local] [id123Remote] = [id123Local]
    ∧ merge_album_results [abbeyLocal] [abbeyRemote] = [abbeyLocal] := by
  refine ⟨?_, by rfl, by rfl⟩
  intro loc rem
  refine ⟨merge_remote_albums
    (loc.foldl (fun seen (a : AlbumResponse) => addQobuz a.qobuz_id seen) [])
    (loc.map album_merge_key) rem, rfl, ?_, ?_⟩
  · intro x hx
    exact merge_remote_albums_sub rem _ _ x hx
  · intro x hx
    have hns := merge_remote_albums_not_seen rem
      (loc.foldl (fun seen (a : AlbumResponse) => addQobuz a.qobuz_id seen) [])
      (loc.map album_merge_key) _ _ (fun a ha => ha) (fun k hk => hk) x hx
    rintro (⟨q, hq, hxq, b, hb, hbq⟩ | ⟨b, hb, hkey⟩)
    · apply hns.1
      rw [hxq]
      show ¬ q = "" ∧ q ∈ _
      exact ⟨hq, mem_addQobuz_foldl loc q hq [] (Or.inr ⟨b, hb, hbq⟩)⟩
    · exact hns.2 (hkey ▸ List.mem_map_of_mem album_merge_key hb)

/-! ## Download orchestrator (`backend/app/services/download.py`)

`DownloadTask` keeps the columns `start_download` reads or writes;
`progress`, `error_message` and the timestamps are never consulted at
task creation.  The `asyncio.create_task(self._execute_download ...)`
spawn mutates no task row at creation time and is outside the model
(the external download executor is an out-of-scope collaborator). -/

inductive TaskStatus where
  | pending
  | downloading
  | completed
  | failed
  | cancelled
deriving DecidableEq, Repr

structure DownloadTask where
  id : Nat
  qobuz_url : String
  album_title : Option String
  artist_name : Option String
  status : TaskStatus
deriving DecidableEq, Repr

structure DownloadState where
  tasks : List DownloadTask
  next_task_id : Nat
deriving DecidableEq, Repr

/-- `DownloadTask.status.in_(["pending", "downloading"])`. -/
def taskInFlight (t : DownloadTask) : Prop :=
  t.status = TaskStatus.pending ∨ t.status = TaskStatus.downloading

instance (t : DownloadTask) : Decidable (taskInFlight t) := by
  unfold taskInFlight; infer_instance

/-- Embeds `start_download` (download.py lines 21–57): return the
existing pending/downloading task for this URL if any, else create a
new pending task. -/
def start_download (db : DownloadState) (qobuz_url : String)
    (album_title artist_name : Option String) : DownloadTask × DownloadState :=
  match db.tasks.find? (fun t => t.qobuz_url = qobuz_url ∧ taskInFlight t) with
  | some existing => (existing, db)
  | none =>
    let task : DownloadTask :=
      ⟨db.next_task_id, qobuz_url, album_title, artist_name, TaskStatus.pending⟩
    (task, { tasks := db.tasks ++ [task], next_task_id := db.next_task_id + 1 })

/-- C8 — while a pending/downloading task for a URL exists,
`start_download` returns that task and leaves the table unchanged; and
it preserves "at most one in-flight task per URL". -/
theorem C8_start_download_dedup :
    (∀ (db : DownloadState) (url : String) (a b : Option String),
      (∃ t ∈ db.tasks, t.qobuz_url = url ∧ taskInFlight t) →
      (start_download db url a b).2 = db
        ∧ (start_download db url a b).1 ∈ db.tasks
        ∧ (start_download db url a b).1.qobuz_url = url
        ∧ taskInFlight (start_download db url a b).1)
    ∧ (∀ (db : DownloadState) (url : String) (a b : Option String),
        (∀ u, db.tasks.countP (fun t => t.qobuz_url = u ∧ taskInFlight t) ≤ 1) →
        ∀ u, (start_download db url a b).2.tasks.countP
            (fun t => t.qobuz_url = u ∧ taskInFlight t) ≤ 1) := by
  constructor
  · intro db url a b hex
    cases hfind : db.tasks.find? (fun t => t.qobuz_url = url ∧ taskInFlight t) with
    | none =>
      exfalso
      obtain ⟨t, ht, hurl, hfl⟩ := hex
      have := List.find?_eq_none.mp hfind t ht
      simp [hurl, hfl] at this
    | some e =>
      have hmem : e ∈ db.tasks := List.mem_of_find?_eq_some hfind
      have hpred := List.find?_some hfind
      simp only [decide_eq_true_eq] at hpred
      simp only [start_download, hfind]
      exact ⟨trivial, hmem, hpred.1, hpred.2⟩
  · intro db url a b hinv u
    cases hfind : db.tasks.find? (fun t => t.qobuz_url = url ∧ taskInFlight t) with
    | some e =>
      simp only [start_download, hfind]
      exact hinv u
    | none =>
      simp only [start_download, hfind]
      rw [List.countP_append]
      by_cases hu : u = url
      · subst hu
        have hzero : db.tasks.countP (fun t => t.qobuz_url = u ∧ taskInFlight t) = 0 :=
          List.countP_eq_zero.mpr (fun t ht => by
            have := List.find?_eq_none.mp hfind t ht
            simpa using this)
        rw [hzero]
        simp [taskInFlight, List.countP_cons]
      · have hone : List.countP (fun t => t.qobuz_url = u ∧ taskInFlight t)
            [(⟨db.next_task_id, url, a, b, TaskStatus.pending⟩ : DownloadTask)] = 0 := by
          simp [List.countP_cons, Ne.symm hu, hu]
        rw [hone]
        simpa using hinv u

/-- C8 — witness: a table holding one pending task for "u". -/
theorem C8_start_download_dedup_witness :
    ((∃ t ∈ (⟨[⟨0, "u", none, none, TaskStatus.pending⟩], 1⟩ : DownloadState).tasks,
        t.qobuz_url = "u" ∧ taskInFlight t)
      ∧ (start_download ⟨[⟨0, "u", none, none, TaskStatus.pending⟩], 1⟩ "u" none none).2
          = ⟨[⟨0, "u", none, none, TaskStatus.pending⟩], 1⟩
      ∧ (start_download ⟨[⟨0, "u", none, none, TaskStatus.pending⟩], 1⟩ "u" none none).1
          ∈ (⟨[⟨0, "u", none, none, TaskStatus.pending⟩], 1⟩ : DownloadState).tasks)
    ∧ ((∀ u, (⟨[⟨0, "u", none, none, TaskStatus.pending⟩], 1⟩ : DownloadState).tasks.countP
          (fun t => t.qobuz_url = u ∧ taskInFlight t) ≤ 1)
      ∧ ∀ u, (start_download ⟨[⟨0, "u", none, none, TaskStatus.pending⟩], 1⟩ "v" none none).2.tasks.countP
          (fun t => t.qobuz_url = u ∧ taskInFlight t) ≤ 1) := by
  have hbound : ∀ u, (⟨[⟨0, "u", none, none, TaskStatus.pending⟩], 1⟩ : DownloadState).tasks.countP
      (fun t => t.qobuz_url = u ∧ taskInFlight t) ≤ 1 :=
    fun u => le_trans (List.countP_le_length _) (by decide)
  refine ⟨⟨by decide, ?_, ?_⟩, hbound, ?_⟩
  · exact (C8_start_download_dedup.1 _ "u" none none (by decide)).1
  · exact (C8_start_download_dedup.1 _ "u" none none (by decide)).2.1
  · exact C8_start_download_dedup.2 _ "v" none none hbound

/-! ## Catalog store (`backend/app/services/music.py`)

`Artist`, `Album`, `Track` keep the columns the embedded operations
read or write; presentation-only columns (`image_url`, `bio`,
`total_tracks`, `duration` on albums, `play_count`, `last_played`,
timestamps) are never consulted by `get_or_create_artist`,
`get_or_create_album`, `add_track`, `scan_directory` or
`verify_local_files` and are omitted.  String helpers work on
`String.data` (`List Char`) so that the kernel can evaluate them;
Python's `str.lower`/`str.strip` are Unicode-aware, the embedding is
ASCII-exact, which agrees on every string these theorems touch. -/

/-- Python `str.lower()`. -/
def pyLower (s : String) : String := (s.data.map Char.toLower).asString

/-- Python `str.strip()`. -/
def pyStrip (s : String) : String :=
  ((s.data.dropWhile Char.isWhitespace).reverse.dropWhile Char.isWhitespace).reverse.asString

/-- Embeds the recurring guard
`if not x or (isinstance(x, str) and not x.strip()): x = default`. -/
def fixName (name? : Option String) (dflt : String) : String :=
  match name? with
  | none => dflt
  | some s => if pyStrip s = "" then dflt else s

/-- `os.path.basename` (POSIX): the part after the last `/`. -/
def pathBasename (s : String) : String :=
  (s.data.reverse.takeWhile (fun c => ¬ c = '/')).reverse.asString

/-- `os.path.splitext` on a slash-free name: split at the last dot,
except that leading dots never start an extension. -/
def splitExtension (s : String) : String × String :=
  let cs := s.data
  let lead := cs.takeWhile (fun c => c = '.')
  let rest := cs.drop lead.length
  if '.' ∈ rest then
    let ext := '.' :: (rest.reverse.takeWhile (fun c => ¬ c = '.')).reverse
    let stem := lead ++ rest.take (rest.length - ext.length)
    (stem.asString, ext.asString)
  else (s, "")

structure Artist where
  id : Nat
  name : String
  qobuz_id : Option String
deriving DecidableEq, Repr

structure Album where
  id : Nat
  title : String
  artist_id : Nat
  qobuz_id : Option String
  qobuz_url : Option String
  cover_art_url : Option String
  cover_art_local : Option String
  release_date : Option String
  genre : Option String
  is_downloaded : Bool
  download_path : Option String
deriving DecidableEq, Repr

structure Track where
  id : Nat
  title : String
  artist_id : Nat
  album_id : Nat
  qobuz_id : Option String
  track_number : Option Int
  disc_number : Int
  duration : Option Int
  file_path : Option String
  is_downloaded : Bool
deriving DecidableEq, Repr

structure CatalogDB where
  artists : List Artist
  albums : List Album
  tracks : List Track
  next_artist_id : Nat
  next_album_id : Nat
  next_track_id : Nat
deriving DecidableEq, Repr

/-- Embeds `get_or_create_artist` (music.py lines 82–115): lookup by
external id when one is supplied (Python truthiness), else by
case-insensitive name (`func.lower` on both sides); create when
nothing matches; backfill the external id when the name-matched row
lacks one. -/
def get_or_create_artist (db : CatalogDB) (name? : Option String)
    (qobuz_id : Option String) : Artist × CatalogDB :=
  let name := pyStrip (fixName name? "Unknown Artist")
  match (if truthy qobuz_id then
      db.artists.find? (fun a => a.qobuz_id = qobuz_id) else none) with
  | some artist => (artist, db)
  | none =>
    match db.artists.find? (fun a => pyLower a.name = pyLower name) with
    | none =>
      let artist : Artist := ⟨db.next_artist_id, name, qobuz_id⟩
      let db' := { db with
        artists := db.artists ++ [artist]
        next_artist_id := db.next_artist_id + 1 }
      (artist, db')
    | some artist =>
      if truthy qobuz_id ∧ ¬ truthy artist.qobuz_id then
        let artist' := { artist with qobuz_id := qobuz_id }
        let db' := { db with
          artists := db.artists.map (fun a => if a.id = artist.id then artist' else a) }
        (artist', db')
      else (artist, db)

/-- Embeds `get_or_create_album` (music.py lines 117–163): lookup by
external id when supplied, else by exact title + artist id; create when
nothing matches.  Note: unlike the artist path, a found album is
returned *unchanged* — there is no external-id backfill here (the
scanner does that separately after the call). -/
def get_or_create_album (db : CatalogDB) (title? : Option String) (artist : Artist)
    (qobuz_id qobuz_url cover_art_url release_date genre : Option String) :
    Album × CatalogDB :=
  let title := fixName title? "Unknown Album"
  match (if truthy qobuz_id then
      db.albums.find? (fun al => al.qobuz_id = qobuz_id) else none) with
  | some album => (album, db)
  | none =>
    match db.albums.find? (fun al => al.title = title ∧ al.artist_id = artist.id) with
    | some album => (album, db)
    | none =>
      let album : Album :=
        ⟨db.next_album_id, title, artist.id, qobuz_id, qobuz_url, cover_art_url,
          none, release_date, genre, false, none⟩
      let db' := { db with
        albums := db.albums ++ [album]
        next_album_id := db.next_album_id + 1 }
      (album, db')

/-- Embeds `add_track` (music.py lines 165–244).  Upsert order:
(a) by external id (updates file path + downloaded only);
(b) by exact file path (updates title/track-number/disc-number/duration
    /downloaded, and artist/album ids when the new data looks better);
(c) by (album, track-number, title) — `track_number == None` compiles
    to `IS NULL`, embedded as `Option` equality;
(d) insert. -/
def add_track (db : CatalogDB) (title? : Option String) (artist : Artist)
    (album : Album) (file_path : String) (qobuz_id : Option String)
    (track_number : Option Int) (disc_number : Int) (duration : Option Int) :
    Track × CatalogDB :=
  let title := fixName title?
    (if ¬ file_path = "" then (splitExtension (pathBasename file_path)).1
     else "Unknown Track")
  match (if truthy qobuz_id then
      db.tracks.find? (fun t => t.qobuz_id = qobuz_id) else none) with
  | some track =>
    let track' := { track with file_path := some file_path, is_downloaded := true }
    let db' := { db with
      tracks := db.tracks.map (fun t => if t.id = track.id then track' else t) }
    (track', db')
  | none =>
    match db.tracks.find? (fun t => t.file_path = some file_path) with
    | some track =>
      let track' := { track with
        title := title
        track_number := track_number
        disc_number := disc_number
        duration := duration
        is_downloaded := true }
      let track' := if ¬ artist.name = "Unknown Artist" then
          { track' with artist_id := artist.id } else track'
      let track' := if album.artist_id = artist.id then
          { track' with album_id := album.id } else track'
      let db' := { db with
        tracks := db.tracks.map (fun t => if t.id = track.id then track' else t) }
      (track', db')
    | none =>
      match db.tracks.find? (fun t => t.album_id = album.id
          ∧ t.track_number = track_number ∧ t.title = title) with
      | some track =>
        let track' := { track with file_path := some file_path, is_downloaded := true }
        let db' := { db with
          tracks := db.tracks.map (fun t => if t.id = track.id then track' else t) }
        (track', db')
      | none =>
        let track : Track :=
          ⟨db.next_track_id, title, artist.id, album.id, qobuz_id,
            track_number, disc_number, duration, some file_path, true⟩
        let db' := { db with
          tracks := db.tracks ++ [track]
          next_track_id := db.next_track_id + 1 }
        (track, db')

def c5_artist : Artist := ⟨1, "X", none⟩
def c5_album : Album := ⟨1, "T", 1, none, none, none, none, none, none, false, none⟩
def c5_track1 : Track := ⟨1, "Old", 1, 1, none, some 1, 1, none, some "p", true⟩
def c5_track2 : Track := ⟨2, "Other", 1, 1, some "z", some 2, 1, none, some "q", true⟩
def c5_db : CatalogDB := ⟨[c5_artist], [c5_album], [c5_track1, c5_track2], 2, 2, 3⟩

/-- C5 — counterexample.  A track row (id 1) owns path "p", but calling
`add_track` for "p" with a supplied external id that belongs to a
*different* row (id 2) takes the external-id branch first: it returns
row 2 (with its path overwritten to "p") and leaves row 1 untouched —
its title stays "Old" instead of being updated to "New". -/
theorem C5_add_track_counterexample :
    (add_track c5_db (some "New") c5_artist c5_album "p" (some "z")
        (some 1) 1 none).1.id = 2
    ∧ c5_track1 ∈ (add_track c5_db (some "New") c5_artist c5_album "p" (some "z")
        (some 1) 1 none).2.tracks
    ∧ c5_track1.file_path = some "p"
    ∧ ¬ c5_track1.title = "New" := by
  decide

/-- C5 (amended) — when `add_track` is called *without* an external id
(as the scanner's rescan always does) for a path already owned by a
track row, that row is updated in place (title, track number, disc
number, duration, downloaded flag) and returned, and no new row is
created. -/
theorem C5_add_track_upsert_by_path (db : CatalogDB) (title? : Option String)
    (artist : Artist) (album : Album) (fp : String)
    (n : Option Int) (d : Int) (du : Option Int) (X : Track)
    (hfind : db.tracks.find? (fun t => t.file_path = some fp) = some X)
    (ti : String) (hti : title? = some ti) (hblank : ¬ pyStrip ti = "") :
    ∃ tr db', add_track db title? artist album fp none n d du = (tr, db')
      ∧ tr.id = X.id
      ∧ tr.title = ti
      ∧ tr.track_number = n
      ∧ tr.disc_number = d
      ∧ tr.duration = du
      ∧ tr.is_downloaded = true
      ∧ tr.file_path = X.file_path
      ∧ db'.tracks = db.tracks.map (fun t => if t.id = X.id then tr else t)
      ∧ db'.tracks.length = db.tracks.length := by
  subst hti
  simp only [add_track, truthy, Bool.false_eq_true, if_false, hfind]
  refine ⟨_, _, rfl, ?_, ?_, ?_, ?_, ?_, ?_, ?_, ?_, ?_⟩ <;>
    by_cases h1 : ¬ artist.name = "Unknown Artist" <;>
    by_cases h2 : album.artist_id = artist.id <;>
    simp [h1, h2, fixName, hblank]

/-- C5 — witness: rescanning path "p" (no external id) with changed
tags hits row 1 and updates it. -/
theorem C5_add_track_upsert_by_path_witness :
    (c5_db.tracks.find? (fun t => t.file_path = some "p") = some c5_track1
      ∧ ¬ pyStrip "New" = "")
    ∧ ∃ tr db', add_track c5_db (some "New") c5_artist c5_album "p" none
          (some 5) 2 (some 60) = (tr, db')
        ∧ tr.id = c5_track1.id
        ∧ tr.title = "New"
        ∧ tr.track_number = some 5
        ∧ tr.disc_number = 2
        ∧ tr.duration = some 60
        ∧ tr.is_downloaded = true
        ∧ tr.file_path = c5_track1.file_path
        ∧ db'.tracks = c5_db.tracks.map (fun t => if t.id = c5_track1.id then tr else t)
        ∧ db'.tracks.length = c5_db.tracks.length :=
  ⟨⟨by decide, by decide⟩,
    C5_add_track_upsert_by_path c5_db (some "New") c5_artist c5_album "p"
      (some 5) 2 (some 60) c5_track1 (by decide) "New" rfl (by decide)⟩

def c7_artist : Artist := ⟨1, "X", none⟩
def c7_album : Album := ⟨1, "T", 1, none, none, none, none, none, none, false, none⟩
def c7_db : CatalogDB := ⟨[c7_artist], [c7_album], [], 2, 2, 1⟩

/-- C7 — counterexample.  `get_or_create_album` finds the album by
(title, artist) — not by external id — while an external id "123" is
supplied and the row has none; the claim says the row is updated with
that id, but the function returns the row and the catalog *unchanged*
(the backfill for albums lives in `scan_directory`, after the call). -/
theorem C7_id_backfill_counterexample :
    get_or_create_album c7_db (some "T") c7_artist (some "123") none none none none
      = (c7_album, c7_db)
    ∧ c7_album.qobuz_id = none := by
  decide

/-- C7 (amended) — `get_or_create_artist` does backfill the supplied
external id onto an artist found by case-insensitive name that lacks
one, without creating a row; `get_or_create_album` returns an album
found by (title, artist) without creating a duplicate, but leaves its
external id untouched. -/
theorem C7_id_backfill :
    (∀ (db : CatalogDB) (name? : Option String) (q : String) (A : Artist),
      ¬ q = "" →
      db.artists.find? (fun a => a.qobuz_id = some q) = none →
      db.artists.find?
          (fun a => pyLower a.name
            = pyLower (pyStrip (fixName name? "Unknown Artist"))) = some A →
      ¬ truthy A.qobuz_id = true →
      get_or_create_artist db name? (some q)
          = ({ A with qobuz_id := some q },
             { db with artists := db.artists.map fun a => if a.id = A.id then { A with qobuz_id := some q } else a })
        ∧ ((get_or_create_artist db name? (some q)).2.artists.length
            = db.artists.length))
    ∧ (∀ (db : CatalogDB) (title? : Option String) (artist : Artist)
        (qobuz_id qobuz_url cover_art_url release_date genre : Option String)
        (B : Album),
      (truthy qobuz_id = true →
        db.albums.find? (fun al => al.qobuz_id = qobuz_id) = none) →
      db.albums.find?
          (fun al => al.title = fixName title? "Unknown Album"
            ∧ al.artist_id = artist.id) = some B →
      get_or_create_album db title? artist qobuz_id qobuz_url cover_art_url
          release_date genre = (B, db)) := by
  constructor
  · intro db name? q A hq hfnone hfname hA
    have htr : truthy (some q) = true := by simp [truthy, hq]
    constructor
    · simp only [get_or_create_artist, htr, if_true, hfnone, hfname]
      rw [if_pos ⟨trivial, by simpa using hA⟩]
    · simp only [get_or_create_artist, htr, if_true, hfnone, hfname]
      rw [if_pos ⟨trivial, by simpa using hA⟩]
      simp
  · intro db title? artist qobuz_id qobuz_url cover_art_url release_date genre B hq hkey
    cases htr : truthy qobuz_id with
    | true =>
      simp only [get_or_create_album, htr, if_true, hq htr, hkey]
    | false =>
      simp only [get_or_create_album, htr, Bool.false_eq_true, if_false, hkey]

/-- C7 — witness: artist backfill on a name-matched row, and an album
found by (title, artist) returned unchanged despite a supplied id. -/
theorem C7_id_backfill_witness :
    ((¬ "123" = ""
        ∧ c7_db.artists.find? (fun a => a.qobuz_id = some "123") = none
        ∧ c7_db.artists.find?
            (fun a => pyLower a.name
              = pyLower (pyStrip (fixName (some "x") "Unknown Artist"))) = some c7_artist
        ∧ ¬ truthy c7_artist.qobuz_id = true)
      ∧ get_or_create_artist c7_db (some "x") (some "123")
          = ({ c7_artist with qobuz_id := some "123" },
             { c7_db with artists := c7_db.artists.map fun a => if a.id = c7_artist.id then { c7_artist with qobuz_id := some "123" } else a }))
    ∧ (c7_db.albums.find?
          (fun al => al.title = fixName (some "T") "Unknown Album"
            ∧ al.artist_id = c7_artist.id) = some c7_album
      ∧ get_or_create_album c7_db (some "T") c7_artist (some "123") none none none none
          = (c7_album, c7_db)) :=
  ⟨⟨⟨by decide, by decide, by decide, by decide⟩,
    (C7_id_backfill.1 c7_db (some "x") "123" c7_artist (by decide) (by decide)
      (by decide) (by decide)).1⟩,
   ⟨by decide,
    C7_id_backfill.2 c7_db (some "T") c7_artist (some "123") none none none none
      c7_album (fun _ => by decide) (by decide)⟩⟩

/-! ## Verifier (`backend/app/services/music.py`, `verify_local_files`)

The file system is an oracle `file_on_disk : String → Bool` standing
for `os.path.exists`.  Python's `set` of album ids to re-check is
embedded as a first-occurrence-deduplicated list: set iteration order
is unspecified, and the per-album deletions below touch disjoint rows,
so any order yields the same final state and statistics. -/

structure VerifyStats where
  verified : Nat
  missing_tracks : Nat
  missing_albums : Nat
deriving DecidableEq, Repr

/-- `track.file_path and not os.path.exists(track.file_path)` for a
row of the `is_downloaded == True` query. -/
def trackFileMissing (file_on_disk : String → Bool) (t : Track) : Bool :=
  t.is_downloaded &&
    (match t.file_path with
     | some p => ¬ file_on_disk p = true
     | none => false)

structure VerifySweep where
  albums : List Album
  tracks : List Track
  missing_albums : Nat
deriving Repr

/-- One album re-check: if no remaining track of the album is
downloaded, delete all its tracks and the album itself. -/
def verify_album_step (st : VerifySweep) (album_id : Nat) : VerifySweep :=
  match st.albums.find? (fun al => al.id = album_id) with
  | none => st
  | some _album =>
    let albumTracks := st.tracks.filter (fun t => t.album_id = album_id)
    if albumTracks.any (fun t => t.is_downloaded) then st
    else
      { albums := st.albums.filter (fun al => ¬ al.id = album_id)
        tracks := st.tracks.filter (fun t => ¬ t.album_id = album_id)
        missing_albums := st.missing_albums + 1 }

/-- Embeds `verify_local_files` (music.py lines 539–599): clear
missing downloaded tracks and count them, delete albums left with no
downloaded track (tracks first, then the album), then delete artists
with no remaining album. -/
def verify_local_files (file_on_disk : String → Bool) (db : CatalogDB) :
    CatalogDB × VerifyStats :=
  let downloaded := db.tracks.filter (fun t => t.is_downloaded)
  let missing_tracks := downloaded.countP (trackFileMissing file_on_disk)
  let verified := downloaded.countP (fun t => ¬ trackFileMissing file_on_disk t = true)
  let tracks1 := db.tracks.map (fun t =>
    if trackFileMissing file_on_disk t then
      { t with is_downloaded := false, file_path := none } else t)
  let albums_to_check := (db.tracks.filterMap (fun t =>
    if trackFileMissing file_on_disk t ∧ ¬ t.album_id = 0 then some t.album_id
    else none)).dedup
  let sweep := albums_to_check.foldl verify_album_step
    ⟨db.albums, tracks1, 0⟩
  let artists1 := db.artists.filter
    (fun a => a.id ∈ sweep.albums.map (fun al => al.artist_id))
  (⟨artists1, sweep.albums, sweep.tracks,
      db.next_artist_id, db.next_album_id, db.next_track_id⟩,
   ⟨verified, missing_tracks, sweep.missing_albums⟩)

/-! ### Generic unique-key list lemmas -/

lemma eq_of_mem_key_unique {α γ : Type} [DecidableEq γ] (key : α → γ)
    (l : List α) (hnd : (l.map key).Nodup) (x y : α) (hx : x ∈ l) (hy : y ∈ l)
    (hkey : key x = key y) : x = y := by
  induction l with
  | nil => cases hx
  | cons a l ih =>
    simp only [List.map_cons, List.nodup_cons] at hnd
    rcases List.mem_cons.mp hx with rfl | hxl <;> rcases List.mem_cons.mp hy with rfl | hyl
    · rfl
    · exact absurd (hkey ▸ List.mem_map_of_mem key hyl) hnd.1
    · exact absurd (hkey ▸ List.mem_map_of_mem key hxl) hnd.1
    · exact ih hnd.2 hxl hyl

lemma countP_eq_one_unique {α γ : Type} [DecidableEq γ] (key : α → γ)
    (l : List α) (p : α → Bool) (hnd : (l.map key).Nodup) (x : α) (hx : x ∈ l)
    (hpx : p x = true) (hothers : ∀ y ∈ l, ¬ key y = key x → p y = false) :
    l.countP p = 1 := by
  induction l with
  | nil => cases hx
  | cons a l ih =>
    simp only [List.map_cons, List.nodup_cons] at hnd
    rcases List.mem_cons.mp hx with rfl | hxl
    · have hzero : l.countP p = 0 := List.countP_eq_zero.mpr (fun y hy => by
        have hne : ¬ key y = key x :=
          fun hc => hnd.1 (hc ▸ List.mem_map_of_mem key hy)
        simp [hothers y (List.mem_cons_of_mem _ hy) hne])
      simp [List.countP_cons, hpx, hzero]
    · have hne : ¬ key a = key x := by
        intro hc
        exact hnd.1 (by rw [hc]; exact List.mem_map_of_mem key hxl)
      have hpa := hothers a (List.mem_cons_self _ _) hne
      simp [List.countP_cons, hpa]
      exact ih hnd.2 hxl (fun y hy => hothers y (List.mem_cons_of_mem _ hy))

lemma filterMap_eq_singleton_unique {α β γ : Type} [DecidableEq γ] (key : α → γ)
    (l : List α) (f : α → Option β) (hnd : (l.map key).Nodup) (x : α) (hx : x ∈ l)
    (b : β) (hfx : f x = some b)
    (hothers : ∀ y ∈ l, ¬ key y = key x → f y = none) :
    l.filterMap f = [b] := by
  induction l with
  | nil => cases hx
  | cons a l ih =>
    simp only [List.map_cons, List.nodup_cons] at hnd
    rcases List.mem_cons.mp hx with rfl | hxl
    · rw [List.filterMap_cons, hfx]
      have hnil : l.filterMap f = [] := by
        rw [List.filterMap_eq_nil_iff]
        intro y hy
        exact hothers y (List.mem_cons_of_mem _ hy)
          (fun hc => hnd.1 (hc ▸ List.mem_map_of_mem key hy))
      rw [hnil]
    · have hne : ¬ key a = key x := by
        intro hc
        exact hnd.1 (by rw [hc]; exact List.mem_map_of_mem key hxl)
      rw [List.filterMap_cons, hothers a (List.mem_cons_self _ _) hne]
      exact ih hnd.2 hxl (fun y hy => hothers y (List.mem_cons_of_mem _ hy))

lemma find?_key_self {α γ : Type} [DecidableEq γ] (key : α → γ)
    (l : List α) (hnd : (l.map key).Nodup) (x : α) (hx : x ∈ l) :
    l.find? (fun y => key y = key x) = some x := by
  induction l with
  | nil => cases hx
  | cons a l ih =>
    simp only [List.map_cons, List.nodup_cons] at hnd
    rcases List.mem_cons.mp hx with rfl | hxl
    · rw [List.find?_cons_of_pos]
      simp
    · have hne : ¬ key a = key x := by
        intro hc
        exact hnd.1 (by rw [hc]; exact List.mem_map_of_mem key hxl)
      rw [List.find?_cons_of_neg]
      · exact ih hnd.2 hxl
      · simp [hne]

/-! ### Verifier round trip (claim C3) -/

def verifyTracks1 (fod : String → Bool) (db : CatalogDB) : List Track :=
  db.tracks.map (fun t =>
    if trackFileMissing fod t then
      { t with is_downloaded := false, file_path := none } else t)

def verifyAlbumsToCheck (fod : String → Bool) (db : CatalogDB) : List Nat :=
  (db.tracks.filterMap (fun t =>
    if trackFileMissing fod t ∧ ¬ t.album_id = 0 then some t.album_id
    else none)).dedup

def verifySweepOf (fod : String → Bool) (db : CatalogDB) : VerifySweep :=
  (verifyAlbumsToCheck fod db).foldl verify_album_step ⟨db.albums, verifyTracks1 fod db, 0⟩

lemma verify_fst (fod : String → Bool) (db : CatalogDB) :
    (verify_local_files fod db).1
      = ⟨db.artists.filter
            (fun a => a.id ∈ (verifySweepOf fod db).albums.map (fun al => al.artist_id)),
          (verifySweepOf fod db).albums, (verifySweepOf fod db).tracks,
          db.next_artist_id, db.next_album_id, db.next_track_id⟩ := rfl

lemma verify_snd (fod : String → Bool) (db : CatalogDB) :
    (verify_local_files fod db).2
      = ⟨(db.tracks.filter (fun t => t.is_downloaded)).countP
            (fun t => ¬ trackFileMissing fod t = true),
          (db.tracks.filter (fun t => t.is_downloaded)).countP (trackFileMissing fod),
          (verifySweepOf fod db).missing_albums⟩ := rfl

lemma countP_missing_over_downloaded (fod : String → Bool) (l : List Track) :
    (l.filter (fun t => t.is_downloaded)).countP (trackFileMissing fod)
      = l.countP (trackFileMissing fod) := by
  rw [List.countP_filter]
  apply List.countP_congr
  intro t _
  cases ht : t.is_downloaded <;> simp [trackFileMissing, ht]

/-- C3 — a downloaded Track whose file is missing, with every other
downloaded track intact: one Verifier run reports `missingTracks = 1`;
the track being its Album's only downloaded track, the run reports
`missingAlbums = 1` and deletes the Album and all its Track rows; a
second run with the same file system reports zero for both. -/
theorem C3_verifier_round_trip (fod : String → Bool) (db : CatalogDB)
    (T : Track) (A : Album) (p : String)
    (h_nd_tracks : (db.tracks.map (fun t => t.id)).Nodup)
    (h_nd_albums : (db.albums.map (fun al => al.id)).Nodup)
    (hT_mem : T ∈ db.tracks) (hT_down : T.is_downloaded = true)
    (hT_path : T.file_path = some p) (h_missing : fod p = false)
    (hTA : T.album_id = A.id) (hA0 : ¬ A.id = 0) (hA_mem : A ∈ db.albums)
    (h_others : ∀ Y ∈ db.tracks, ¬ Y.id = T.id → Y.is_downloaded = true →
      Y.file_path = none ∨ ∃ q, Y.file_path = some q ∧ fod q = true)
    (h_only : ∀ Y ∈ db.tracks, Y.album_id = A.id → Y.is_downloaded = true →
      Y.id = T.id) :
    (verify_local_files fod db).2.missing_tracks = 1
    ∧ (verify_local_files fod db).2.missing_albums = 1
    ∧ (∀ B ∈ (verify_local_files fod db).1.albums, ¬ B.id = A.id)
    ∧ (∀ Y ∈ (verify_local_files fod db).1.tracks, ¬ Y.album_id = A.id)
    ∧ (verify_local_files fod (verify_local_files fod db).1).2.missing_tracks = 0
    ∧ (verify_local_files fod (verify_local_files fod db).1).2.missing_albums = 0 := by
  have hTmiss : trackFileMissing fod T = true := by
    simp [trackFileMissing, hT_down, hT_path, h_missing]
  have hothersmiss : ∀ Y ∈ db.tracks, ¬ Y.id = T.id → trackFileMissing fod Y = false := by
    intro Y hY hne
    cases hd : Y.is_downloaded with
    | false => simp [trackFileMissing, hd]
    | true =>
      rcases h_others Y hY hne hd with hnone | ⟨q, hq, hex⟩
      · simp [trackFileMissing, hnone]
      · simp [trackFileMissing, hq, hex]
  have hcheck : verifyAlbumsToCheck fod db = [A.id] := by
    unfold verifyAlbumsToCheck
    have hfm : db.tracks.filterMap (fun t =>
        if trackFileMissing fod t ∧ ¬ t.album_id = 0 then some t.album_id
        else none) = [A.id] :=
      filterMap_eq_singleton_unique (fun t => t.id) db.tracks _ h_nd_tracks T hT_mem
        A.id (by simp [hTmiss, hTA, hA0])
        (fun y hy hne => by simp [hothersmiss y hy hne])
    rw [hfm, List.dedup_cons_of_not_mem (by simp), List.dedup_nil]
  have hnotdown : ∀ t ∈ verifyTracks1 fod db, t.album_id = A.id →
      t.is_downloaded = false := by
    intro t ht htA
    rcases List.mem_map.mp ht with ⟨t0, ht0, rfl⟩
    by_cases hm : trackFileMissing fod t0 = true
    · simp [hm]
    · simp only [if_neg hm] at htA ⊢
      cases hd : t0.is_downloaded with
      | false => rfl
      | true =>
        have hid := h_only t0 ht0 htA hd
        have ht0T : t0 = T :=
          eq_of_mem_key_unique (fun t => t.id) db.tracks h_nd_tracks t0 T ht0 hT_mem hid
        rw [ht0T] at hm
        exact absurd hTmiss hm
  have hfindA : db.albums.find? (fun al => al.id = A.id) = some A :=
    find?_key_self (fun al => al.id) db.albums h_nd_albums A hA_mem
  have hany : ((verifyTracks1 fod db).filter (fun t => t.album_id = A.id)).any
      (fun t => t.is_downloaded) = false := by
    rw [List.any_eq_false]
    intro t ht
    rcases List.mem_filter.mp ht with ⟨ht1, htA⟩
    simp [hnotdown t ht1 (by simpa using htA)]
  have hsweep : verifySweepOf fod db
      = ⟨db.albums.filter (fun al => ¬ al.id = A.id),
         (verifyTracks1 fod db).filter (fun t => ¬ t.album_id = A.id), 1⟩ := by
    unfold verifySweepOf
    rw [hcheck, List.foldl_cons, List.foldl_nil]
    unfold verify_album_step
    rw [hfindA]
    simp only [hany, Bool.false_eq_true, if_false]
  have hmiss1 : (verify_local_files fod db).2.missing_tracks = 1 := by
    rw [verify_snd]
    show (db.tracks.filter (fun t => t.is_downloaded)).countP (trackFileMissing fod) = 1
    rw [countP_missing_over_downloaded]
    exact countP_eq_one_unique (fun t => t.id) db.tracks _ h_nd_tracks T hT_mem hTmiss
      hothersmiss
  refine ⟨hmiss1, ?_, ?_, ?_, ?_, ?_⟩
  · rw [verify_snd]
    show (verifySweepOf fod db).missing_albums = 1
    rw [hsweep]
  · intro B hB
    rw [verify_fst] at hB
    have : B ∈ (verifySweepOf fod db).albums := hB
    rw [hsweep] at this
    have := List.mem_filter.mp this
    simpa using this.2
  · intro Y hY
    rw [verify_fst] at hY
    have : Y ∈ (verifySweepOf fod db).tracks := hY
    rw [hsweep] at this
    have := List.mem_filter.mp this
    simpa using this.2
  all_goals {
    have hclean : ∀ t ∈ (verify_local_files fod db).1.tracks,
        trackFileMissing fod t = false := by
      intro t ht
      rw [verify_fst] at ht
      have ht' : t ∈ (verifySweepOf fod db).tracks := ht
      rw [hsweep] at ht'
      have ht1 : t ∈ verifyTracks1 fod db := (List.mem_filter.mp ht').1
      rcases List.mem_map.mp ht1 with ⟨t0, _ht0, rfl⟩
      by_cases hm : trackFileMissing fod t0 = true
      · rw [if_pos hm]
        simp [trackFileMissing]
      · rw [if_neg hm]
        exact Bool.eq_false_iff.mpr (fun hc => hm hc)
    first
    | · rw [verify_snd]
        show ((verify_local_files fod db).1.tracks.filter
            (fun t => t.is_downloaded)).countP (trackFileMissing fod) = 0
        rw [countP_missing_over_downloaded]
        exact List.countP_eq_zero.mpr (fun t ht => by simp [hclean t ht])
    | · rw [verify_snd]
        show (verifySweepOf fod (verify_local_files fod db).1).missing_albums = 0
        have hempty : verifyAlbumsToCheck fod (verify_local_files fod db).1 = [] := by
          unfold verifyAlbumsToCheck
          rw [List.filterMap_eq_nil_iff.mpr, List.dedup_nil]
          intro t ht
          simp [hclean t ht]
        unfold verifySweepOf
        rw [hempty, List.foldl_nil]
  }

def c3_fod : String → Bool := fun _ => false
def c3_T : Track := ⟨1, "t1", 1, 1, none, some 1, 1, none, some "p", true⟩
def c3_T2 : Track := ⟨2, "t2", 1, 1, none, some 2, 1, none, none, false⟩
def c3_A : Album := ⟨1, "T", 1, none, none, none, none, none, none, true, none⟩
def c3_db : CatalogDB := ⟨[⟨1, "X", none⟩], [c3_A], [c3_T, c3_T2], 2, 2, 3⟩

/-- C3 — witness: one album whose only downloaded track has a missing
file. -/
theorem C3_verifier_round_trip_witness :
    (verify_local_files c3_fod c3_db).2.missing_tracks = 1
    ∧ (verify_local_files c3_fod c3_db).2.missing_albums = 1
    ∧ (∀ B ∈ (verify_local_files c3_fod c3_db).1.albums, ¬ B.id = c3_A.id)
    ∧ (∀ Y ∈ (verify_local_files c3_fod c3_db).1.tracks, ¬ Y.album_id = c3_A.id)
    ∧ (verify_local_files c3_fod (verify_local_files c3_fod c3_db).1).2.missing_tracks = 0
    ∧ (verify_local_files c3_fod (verify_local_files c3_fod c3_db).1).2.missing_albums = 0 :=
  C3_verifier_round_trip c3_fod c3_db c3_T c3_A "p"
    (by decide) (by decide) (by decide) (by decide) (by decide) rfl
    (by decide) (by decide) (by decide)
    (by
      intro Y hY hne hd
      rcases List.mem_cons.mp hY with rfl | hY2
      · exact absurd rfl hne
      · rcases List.mem_cons.mp hY2 with rfl | h
        · exact absurd hd (by decide)
        · cases h)
    (by decide)

/-! ## Path-based metadata fallback (`music.py`, `_extract_metadata_from_path`)

The regular expressions of the source are translated into explicit
backtracking matchers over `List Char`, following Python `re` semantics:
lazy `(.+?)` groups try the shortest prefix first, greedy `\s*`/`\s+`/
`[.\s-]+` runs try the longest run first and give characters back on
failure (runs followed by a character outside the class, such as
`\s*-`, are forced to their maximal extent), `.` matches anything but a
newline, and `(?:...)?` tries the present alternative first.  `\s`/`\d`
/`\w` are embedded as their ASCII readings, which agree with Python on
the paths considered here. -/

def isSpaceChar (c : Char) : Bool := c.isWhitespace

def isDigitChar (c : Char) : Bool := c.isDigit

/-- Regex `.` (no DOTALL flag). -/
def dotChar (c : Char) : Bool := ¬ c = '\n'

/-- Python `not s` for an optional string. -/
def falsyStr : Option String → Bool
  | none => true
  | some s => s = ""

/-- Does `l` match `\s*\(\d{4}\)$` entirely? -/
def yearSuffix (l : List Char) : Bool :=
  match l.dropWhile isSpaceChar with
  | '(' :: rest => (rest.take 4).all isDigitChar && rest.drop 4 = [')']
  | _ => false

/-- Lazy `(.+?)` followed by `(?:\s*\(\d{4}\))?$`: accept the shortest
non-empty prefix whose remainder is empty or a year suffix. -/
def lazyTail2 (acc : List Char) : List Char → Option (List Char)
  | [] => none
  | c :: rest =>
    if c = '\n' then none
    else
      let acc' := acc ++ [c]
      if rest = [] ∨ yearSuffix rest then some acc'
      else lazyTail2 acc' rest

/-- Greedy second `\s*` of `\s*-\s*`, giving spaces back on failure. -/
def sepTailWs : Nat → List Char → Option (List Char)
  | 0, r => lazyTail2 [] r
  | k + 1, r =>
    match lazyTail2 [] (r.drop (k + 1)) with
    | some g2 => some g2
    | none => sepTailWs k r

/-- `\s*-\s*` then the lazy tail (the first `\s*` is forced maximal:
`-` is not whitespace). -/
def sepTail (l : List Char) : Option (List Char) :=
  match l.dropWhile isSpaceChar with
  | '-' :: r => sepTailWs (r.takeWhile isSpaceChar).length r
  | _ => none

/-- Lazy `(.+?)` group 1 of the directory pattern. -/
def dirMatchAux (acc : List Char) : List Char → Option (List Char × List Char)
  | [] => none
  | c :: rest =>
    if c = '\n' then none
    else
      let acc' := acc ++ [c]
      match sepTail rest with
      | some g2 => some (acc', g2)
      | none => dirMatchAux acc' rest

/-- `re.match(r'^(.+?)\s*-\s*(.+?)(?:\s*\(\d{4}\))?$', dir_name)`. -/
def dirMatch (s : String) : Option (String × String) :=
  (dirMatchAux [] s.data).map (fun g => (g.1.asString, g.2.asString))

/-- Greedy `\s+` after `-` in `\s+-\s+` (at least one space). -/
def sepTailPlusWs : Nat → List Char → Option (List Char)
  | 0, _ => none
  | k + 1, r =>
    match lazyTail2 [] (r.drop (k + 1)) with
    | some g2 => some g2
    | none => sepTailPlusWs k r

/-- `\s+-\s+` then the lazy tail (first `\s+` forced maximal, nonempty). -/
def sepTailPlus (l : List Char) : Option (List Char) :=
  let sp := l.takeWhile isSpaceChar
  if sp.length = 0 then none
  else
    match l.drop sp.length with
    | '-' :: r => sepTailPlusWs (r.takeWhile isSpaceChar).length r
    | _ => none

def dirMatchPlusAux (acc : List Char) : List Char → Option (List Char × List Char)
  | [] => none
  | c :: rest =>
    if c = '\n' then none
    else
      let acc' := acc ++ [c]
      match sepTailPlus rest with
      | some g2 => some (acc', g2)
      | none => dirMatchPlusAux acc' rest

/-- `re.match(r'^(.+?)\s+-\s+(.+?)(?:\s*\(\d{4}\))?$', dir_name)`, the
variant used by `_extract_artist_album_from_path` and
`_extract_album_from_path`. -/
def dirMatchPlus (s : String) : Option (String × String) :=
  (dirMatchPlusAux [] s.data).map (fun g => (g.1.asString, g.2.asString))

/-- Embeds `_extract_artist_album_from_path` (music.py lines 488–499). -/
def extract_artist_album_from_path (directory : String) :
    Option String × Option String :=
  let dir_name := pathBasename directory
  match dirMatchPlus dir_name with
  | some (a, b) => (some (pyStrip a), some (pyStrip b))
  | none => (none, if dir_name = "" then none else some dir_name)

/-- Embeds `_extract_album_from_path` (music.py lines 501–512). -/
def extract_album_from_path (directory : String) : Option String :=
  let dir_name := pathBasename directory
  match dirMatchPlus dir_name with
  | some (_, b) => some (pyStrip b)
  | none => if dir_name = "" then none else some dir_name

/-- The character class `[.\s-]`. -/
def trkClass (c : Char) : Bool := c = '.' || isSpaceChar c || c = '-'

/-- `(.+)$`: the whole remainder, non-empty, no newline. -/
def dotPlusEnd (l : List Char) : Option (List Char) :=
  if ¬ l = [] ∧ l.all dotChar then some l else none

/-- Greedy second `\s*` of the optional `(.+?)\s*-\s*` group, then
`(.+)$`. -/
def sepG3Ws : Nat → List Char → Option (List Char)
  | 0, r => dotPlusEnd r
  | k + 1, r =>
    match dotPlusEnd (r.drop (k + 1)) with
    | some g3 => some g3
    | none => sepG3Ws k r

def sepG3 (l : List Char) : Option (List Char) :=
  match l.dropWhile isSpaceChar with
  | '-' :: r => sepG3Ws (r.takeWhile isSpaceChar).length r
  | _ => none

/-- Lazy `(.+?)` of the optional artist group, with its continuation. -/
def lazyG2 (acc : List Char) : List Char → Option (List Char × List Char)
  | [] => none
  | c :: rest =>
    if c = '\n' then none
    else
      let acc' := acc ++ [c]
      match sepG3 rest with
      | some g3 => some (acc', g3)
      | none => lazyG2 acc' rest

/-- `(?:(.+?)\s*-\s*)?(.+)$`: greedy option — present first, absent
second. -/
def optArtistTitle (l : List Char) : Option (Option (List Char) × List Char) :=
  match lazyG2 [] l with
  | some (g2, g3) => some (some g2, g3)
  | none =>
    match dotPlusEnd l with
    | some g3 => some (none, g3)
    | none => none

/-- Greedy `[.\s-]+` giving characters back on failure (at least one). -/
def classRunBacktrack : Nat → List Char → Option (Option (List Char) × List Char)
  | 0, _ => none
  | k + 1, r =>
    match optArtistTitle (r.drop (k + 1)) with
    | some res => some res
    | none => classRunBacktrack k r

def parseNatDigits (l : List Char) : Nat :=
  l.foldl (fun n c => n * 10 + (c.toNat - '0'.toNat)) 0

/-- `re.match(r'^(\d+)[.\s-]+(?:(.+?)\s*-\s*)?(.+)$', base_name)`:
the leading `\d+` is forced maximal (digits are outside `[.\s-]`). -/
def trackMatch (s : String) : Option (Nat × Option String × String) :=
  let cs := s.data
  let digits := cs.takeWhile isDigitChar
  if digits = [] then none
  else
    let rest := cs.drop digits.length
    let run := rest.takeWhile trkClass
    match classRunBacktrack run.length rest with
    | some (g2, g3) => some (parseNatDigits digits, g2.map List.asString, g3.asString)
    | none => none

/-- Embeds `_clean_filename_for_title` (music.py lines 514–529). -/
def clean_filename_for_title (filename : String) : String :=
  let base := (splitExtension filename).1
  -- re.sub(r'^\d+[.\s-]+', '', base): both runs are maximal; the sub
  -- fires only when both are non-empty.
  let base :=
    let cs := base.data
    let ds := cs.takeWhile isDigitChar
    if ds = [] then base
    else
      let rest := cs.drop ds.length
      let run := rest.takeWhile trkClass
      if run = [] then base else (rest.drop run.length).asString
  -- if ' - ' in base: base = base.split(' - ', 1)[1]
  let base :=
    match splitOnceDash base.data with
    | some rest => rest.asString
    | none => base
  if pyStrip base = "" then filename else pyStrip base
where
  /-- Remainder after the first occurrence of `" - "`. -/
  splitOnceDash : List Char → Option (List Char)
  | ' ' :: '-' :: ' ' :: rest => some rest
  | _ :: rest => splitOnceDash rest
  | [] => none

/-- The metadata record assembled by the extractor (mirrors the Python
dict keys). -/
structure Metadata where
  title : Option String
  artist : Option String
  album : Option String
  genre : Option String
  tracknumber : Option Int
  discnumber : Option Int
  duration : Option Int
deriving DecidableEq, Repr

/-- Embeds `_extract_metadata_from_path` (music.py lines 424–486).  The
`MutagenFile` duration probe is the oracle `dur`; barring interpreter
exceptions the Python function always returns a dict, so the result is
always `some`. -/
def extract_metadata_from_path (dur : String → Option Int)
    (file_path filename directory : String) : Option Metadata :=
  let duration := dur file_path
  let dir_name := pathBasename directory
  let (artist_name, album_name) :=
    match dirMatch dir_name with
    | some (a, b) => (some (pyStrip a), some (pyStrip b))
    | none => (none, some dir_name)
  let base_name := (splitExtension filename).1
  match trackMatch base_name with
  | some (n, g2, g3) =>
    let artist_name :=
      match g2 with
      | some a2 => if falsyStr artist_name then some (pyStrip a2) else artist_name
      | none => artist_name
    some ⟨some (pyStrip g3), artist_name, album_name, none,
      some (Int.ofNat n), some 1, duration⟩
  | none =>
    some ⟨some base_name, artist_name, album_name, none, none, some 1, duration⟩

/-- C9: on the path `/music/Pink Floyd - The Wall (1979)/01. Pink Floyd
- In The Flesh.mp3` with no readable tags (the duration probe returns
nothing), the path-based metadata fallback resolves artist
"Pink Floyd", album "The Wall", track number 1 and title
"In The Flesh". -/
theorem C9_metadata_fallback :
    extract_metadata_from_path (fun _ => none)
        "/music/Pink Floyd - The Wall (1979)/01. Pink Floyd - In The Flesh.mp3"
        "01. Pink Floyd - In The Flesh.mp3"
        "/music/Pink Floyd - The Wall (1979)"
      = some { title := some "In The Flesh"
               artist := some "Pink Floyd"
               album := some "The Wall"
               genre := none
               tracknumber := some 1
               discnumber := some 1
               duration := none } := by
  rfl

/-! ## Scanner (`backend/app/services/music.py`, `scan_directory`)

The walked directory tree is a list of `(root, filename)` pairs in
`os.walk` order; only the per-file body is embedded (cover-art discovery
per directory is the oracle `coverOf`, tag reading via mutagen is the
oracle `md` — an unchanged tree answers both identically on every run,
and `md x = none` stands for a file whose tag read *and* path fallback
failed, the `errors` branch).  The ORM session is one `CatalogDB`
threaded through the fold; mutating a fetched `Album` row becomes an
id-keyed map over `albums`. -/

structure ScanFile where
  root : String
  filename : String
deriving DecidableEq, Repr

/-- `os.path.join(root, filename)` for a slash-terminated-free root. -/
def scanPath (f : ScanFile) : String := f.root ++ "/" ++ f.filename

/-- `os.path.splitext(filename)[1].lower() in supported_extensions`. -/
def audioExt (filename : String) : Bool :=
  let e := pyLower (splitExtension filename).2
  e = ".mp3" || e = ".flac" || e = ".m4a" || e = ".ogg" || e = ".wav"

/-- Python `not x or (isinstance(x, str) and not x.strip())`. -/
def falsyOrBlank (o : Option String) : Bool :=
  match o with
  | none => true
  | some s => pyStrip s = ""

/-- Python `a or b` for an optional string `a`. -/
def orElseStr (a : Option String) (b : String) : String :=
  match a with
  | none => b
  | some s => if s = "" then b else s

/-- Python `a or b or c` for optional strings `a`, `b`. -/
def orElseStr3 (a b : Option String) (c : String) : String :=
  match a with
  | none => orElseStr b c
  | some s => if s = "" then orElseStr b c else s

/-- Python `a or d` for an optional int (`0 or d` is `d`). -/
def orElseInt (o : Option Int) (d : Int) : Int :=
  match o with
  | none => d
  | some n => if n = 0 then d else n

structure ResolvedNames where
  artist_name : Option String
  album_title : Option String
  track_title : String
deriving DecidableEq, Repr

/-- The scanner's artist/album/title fixup block (music.py lines
300–315): folder-name fallbacks when the extracted fields are missing,
blank or the placeholder artist. -/
def scanResolve (m : Metadata) (root filename : String) : ResolvedNames :=
  let a0 := m.artist
  let b0 := m.album
  let ab :=
    if falsyStr a0 ∨ falsyStr b0 ∨ a0 = some "Unknown Artist" then
      let fab := extract_artist_album_from_path root
      let a1 := if falsyOrBlank a0 ∨ a0 = some "Unknown Artist" then
          some (orElseStr fab.1 "Unknown Artist") else a0
      let b1 := if falsyOrBlank b0 then
          some (orElseStr3 fab.2 (extract_album_from_path root) "Unknown Album") else b0
      (a1, b1)
    else (a0, b0)
  let t :=
    match m.title with
    | none => clean_filename_for_title filename
    | some s => if pyStrip s = "" then clean_filename_for_title filename else s
  ⟨ab.1, ab.2, t⟩

structure ScanStats where
  albums : Nat
  tracks : Nat
  errors : Nat
deriving DecidableEq, Repr

/-- The scanner's post-lookup album mutations (music.py lines 329–346):
external-id/url backfill, the `is_downloaded` block (whose firing is the
`albums` stat increment, returned as the Bool), and cover art.  All
mutations leave `id`, `title` and `artist_id` untouched and the
returned album is always downloaded. -/
def scanAlbumUpdate (qobuz_album_id qobuz_url : Option String)
    (cover_art_path : Option String) (root : String) (album : Album) :
    Album × Bool :=
  let album := if truthy qobuz_album_id ∧ ¬ truthy album.qobuz_id then
      { album with qobuz_id := qobuz_album_id } else album
  let album := if truthy qobuz_url ∧ ¬ truthy album.qobuz_url then
      { album with qobuz_url := qobuz_url } else album
  let res :=
    if album.is_downloaded = true then (album, false)
    else ({ album with is_downloaded := true, download_path := some root }, true)
  let album := res.1
  let album :=
    match cover_art_path with
    | some cp => if truthy album.cover_art_local then album
        else { album with cover_art_local := some cp }
    | none => album
  (album, res.2)

/-- One iteration of the scanner's file loop (music.py lines 281–363):
extension filter, metadata-or-error, name fixup, artist and album
resolution, album mutations (reflected into the catalog by id), track
upsert, statistics. -/
def processFile (md : ScanFile → Option Metadata) (coverOf : String → Option String)
    (qobuz_album_id qobuz_url : Option String)
    (acc : CatalogDB × ScanStats) (f : ScanFile) : CatalogDB × ScanStats :=
  if ¬ audioExt f.filename then acc
  else
    match md f with
    | none => (acc.1, { acc.2 with errors := acc.2.errors + 1 })
    | some m =>
      let names := scanResolve m f.root f.filename
      let ra : Artist × CatalogDB := get_or_create_artist acc.1 names.artist_name none
      let rb : Album × CatalogDB :=
        get_or_create_album ra.2 names.album_title ra.1 qobuz_album_id qobuz_url
          none none m.genre
      let ru : Album × Bool :=
        scanAlbumUpdate qobuz_album_id qobuz_url (coverOf f.root) f.root rb.1
      let db3 : CatalogDB := { rb.2 with
        albums := rb.2.albums.map (fun al => if al.id = rb.1.id then ru.1 else al) }
      let rt : Track × CatalogDB :=
        add_track db3 (some names.track_title) ra.1 ru.1 (scanPath f) none
          m.tracknumber (orElseInt m.discnumber 1) m.duration
      (rt.2, { acc.2 with
        albums := acc.2.albums + (if ru.2 then 1 else 0)
        tracks := acc.2.tracks + 1 })

/-- Embeds `scan_directory` (music.py lines 246–376). -/
def scan_directory (md : ScanFile → Option Metadata) (coverOf : String → Option String)
    (qobuz_album_id qobuz_url : Option String) (db : CatalogDB)
    (fs : List ScanFile) : CatalogDB × ScanStats :=
  fs.foldl (processFile md coverOf qobuz_album_id qobuz_url) (db, ⟨0, 0, 0⟩)

/-! ### Scanner idempotence: resolution helpers -/

/-- The name `get_or_create_artist` stores and queries. -/
def resName (nm? : Option String) : String := pyStrip (fixName nm? "Unknown Artist")

/-- The artist lookup of `get_or_create_artist` (case-insensitive name). -/
def artistFind (l : List Artist) (nm? : Option String) : Option Artist :=
  l.find? (fun a => pyLower a.name = pyLower (resName nm?))

/-- The album lookup of `get_or_create_album` (exact title + artist id). -/
def albumFind (l : List Album) (title? : Option String) (aid : Nat) : Option Album :=
  l.find? (fun al => al.title = fixName title? "Unknown Album" ∧ al.artist_id = aid)

/-- The title `add_track` stores and queries. -/
def addTitle (title? : Option String) (file_path : String) : String :=
  fixName title?
    (if ¬ file_path = "" then (splitExtension (pathBasename file_path)).1
     else "Unknown Track")

/-- The record written by `add_track`'s file-path branch. -/
def trackPathUpd (tt? : Option String) (A : Artist) (Alb : Album) (path : String)
    (num : Option Int) (dn : Int) (du : Option Int) (told : Track) : Track :=
  let t1 := { told with
    title := addTitle tt? path
    track_number := num
    disc_number := dn
    duration := du
    is_downloaded := true }
  let t2 := if ¬ A.name = "Unknown Artist" then { t1 with artist_id := A.id } else t1
  if Alb.artist_id = A.id then { t2 with album_id := Alb.id } else t2

lemma find?_append_some {α : Type} {l l' : List α} {p : α → Bool} {x : α}
    (h : l.find? p = some x) : (l ++ l').find? p = some x := by
  induction l with
  | nil => simp [List.find?] at h
  | cons a t ih =>
    cases hpa : p a with
    | true => rw [List.find?_cons_of_pos _ hpa] at h
              rw [List.cons_append, List.find?_cons_of_pos _ hpa]; exact h
    | false => rw [List.find?_cons_of_neg _ (by simp [hpa])] at h
               rw [List.cons_append, List.find?_cons_of_neg _ (by simp [hpa])]
               exact ih h

lemma find?_append_of_none {α : Type} {l : List α} (l' : List α) {p : α → Bool}
    (h : l.find? p = none) : (l ++ l').find? p = l'.find? p := by
  induction l with
  | nil => simp
  | cons a t ih =>
    cases hpa : p a with
    | true => rw [List.find?_cons_of_pos _ hpa] at h; cases h
    | false => rw [List.find?_cons_of_neg _ (by simp [hpa])] at h
               rw [List.cons_append, List.find?_cons_of_neg _ (by simp [hpa])]
               exact ih h

lemma find?_map_pointwise {α : Type} {l : List α} {g : α → α} {p : α → Bool}
    (h : ∀ x ∈ l, p (g x) = p x) : (l.map g).find? p = (l.find? p).map g := by
  induction l with
  | nil => simp
  | cons a t ih =>
    have ha := h a (List.mem_cons_self _ _)
    cases hpa : p a with
    | true =>
      rw [List.map_cons, List.find?_cons_of_pos _ (ha.trans hpa),
        List.find?_cons_of_pos _ hpa]
      rfl
    | false =>
      rw [List.map_cons, List.find?_cons_of_neg _ (by simp [ha, hpa]),
        List.find?_cons_of_neg _ (by simp [hpa])]
      exact ih (fun x hx => h x (List.mem_cons_of_mem _ hx))

/-- `get_or_create_artist` with no external id, as a match on the name
lookup. -/
lemma gca_eq (db : CatalogDB) (nm? : Option String) :
    get_or_create_artist db nm? none =
      match artistFind db.artists nm? with
      | some a => (a, db)
      | none =>
        ((⟨db.next_artist_id, resName nm?, none⟩ : Artist),
         { db with
             artists := db.artists ++ [(⟨db.next_artist_id, resName nm?, none⟩ : Artist)]
             next_artist_id := db.next_artist_id + 1 }) := by
  simp only [get_or_create_artist, artistFind, resName, truthy, Bool.false_eq_true,
    false_and, if_false]
  cases db.artists.find? (fun a =>
      pyLower a.name = pyLower (pyStrip (fixName nm? "Unknown Artist"))) <;> rfl

/-- `get_or_create_album` with no external id, as a match on the
title+artist lookup. -/
lemma goa_eq (db : CatalogDB) (ttl? : Option String) (A : Artist) (g : Option String) :
    get_or_create_album db ttl? A none none none none g =
      match albumFind db.albums ttl? A.id with
      | some al => (al, db)
      | none =>
        ((⟨db.next_album_id, fixName ttl? "Unknown Album", A.id, none, none, none,
            none, none, g, false, none⟩ : Album),
         { db with
             albums := db.albums ++
               [(⟨db.next_album_id, fixName ttl? "Unknown Album", A.id, none, none,
                  none, none, none, g, false, none⟩ : Album)]
             next_album_id := db.next_album_id + 1 }) := by
  rfl

/-- `add_track` with no external id, as nested matches on the path and
triple lookups. -/
lemma ata_eq (db : CatalogDB) (tt? : Option String) (A : Artist) (Alb : Album)
    (path : String) (num : Option Int) (dn : Int) (du : Option Int) :
    add_track db tt? A Alb path none num dn du =
      match db.tracks.find? (fun t => t.file_path = some path) with
      | some told =>
        (trackPathUpd tt? A Alb path num dn du told,
         { db with tracks := db.tracks.map (fun t =>
             if t.id = told.id then trackPathUpd tt? A Alb path num dn du told else t) })
      | none =>
        match db.tracks.find? (fun t => t.album_id = Alb.id
            ∧ t.track_number = num ∧ t.title = addTitle tt? path) with
        | some told =>
          ({ told with file_path := some path, is_downloaded := true },
           { db with tracks := db.tracks.map (fun t =>
               if t.id = told.id
               then { told with file_path := some path, is_downloaded := true }
               else t) })
        | none =>
          ((⟨db.next_track_id, addTitle tt? path, A.id, Alb.id, none,
              num, dn, du, some path, true⟩ : Track),
           { db with
               tracks := db.tracks ++
                 [(⟨db.next_track_id, addTitle tt? path, A.id, Alb.id, none,
                    num, dn, du, some path, true⟩ : Track)]
               next_track_id := db.next_track_id + 1 }) := by
  rfl

lemma scanAlbumUpdate_fields (qa qu c : Option String) (r : String) (al : Album) :
    (scanAlbumUpdate qa qu c r al).1.id = al.id ∧
    (scanAlbumUpdate qa qu c r al).1.title = al.title ∧
    (scanAlbumUpdate qa qu c r al).1.artist_id = al.artist_id ∧
    (scanAlbumUpdate qa qu c r al).1.is_downloaded = true := by
  cases c <;> simp only [scanAlbumUpdate] <;> split_ifs <;> simp_all

lemma scanAlbumUpdate_no_stat (c : Option String) (r : String) (al : Album)
    (h : al.is_downloaded = true) :
    (scanAlbumUpdate none none c r al).2 = false := by
  cases c <;> simp [scanAlbumUpdate, truthy, h]

/-! ### Scanner idempotence: invariants

`Estab md fs db f m` says the catalog already reflects file `f`: its
resolved artist is found by name, that artist's resolved album is found
by title and is downloaded, and a track row carries `f`'s album/number/
title whose file path belongs to some tree file that resolves to the
same album, number and title (after a `(c)`-branch steal this owner can
be a sibling file with identical resolved metadata rather than `f`
itself).  A second `processFile` on an established file changes no row
counts and adds nothing to the `albums` stat. -/

def fNames (m : Metadata) (f : ScanFile) : ResolvedNames :=
  scanResolve m f.root f.filename

def fTrackTitle (m : Metadata) (f : ScanFile) : String :=
  addTitle (some (fNames m f).track_title) (scanPath f)

def ResolvesAlb (db : CatalogDB) (f : ScanFile) (m : Metadata) (alid : Nat) : Prop :=
  ∃ A, artistFind db.artists (fNames m f).artist_name = some A ∧
    ∃ Al, albumFind db.albums (fNames m f).album_title A.id = some Al ∧ Al.id = alid

def TrackWit (md : ScanFile → Option Metadata) (fs : List ScanFile)
    (db : CatalogDB) (f : ScanFile) (m : Metadata) (alid : Nat) : Prop :=
  ∃ r, r ∈ db.tracks ∧ r.album_id = alid ∧ r.track_number = m.tracknumber ∧
    r.title = fTrackTitle m f ∧
    ∃ x, x ∈ fs ∧ ∃ mx, md x = some mx ∧
      fTrackTitle mx x = fTrackTitle m f ∧ mx.tracknumber = m.tracknumber ∧
      ResolvesAlb db x mx alid ∧ r.file_path = some (scanPath x)

def Estab (md : ScanFile → Option Metadata) (fs : List ScanFile)
    (db : CatalogDB) (f : ScanFile) (m : Metadata) : Prop :=
  ∃ A, artistFind db.artists (fNames m f).artist_name = some A ∧
    ∃ Al, albumFind db.albums (fNames m f).album_title A.id = some Al ∧
      Al.is_downloaded = true ∧ TrackWit md fs db f m Al.id

def IdInv (db : CatalogDB) : Prop :=
  (db.albums.map Album.id).Nodup ∧ (∀ al ∈ db.albums, al.id < db.next_album_id) ∧
  (db.tracks.map Track.id).Nodup ∧ (∀ t ∈ db.tracks, t.id < db.next_track_id)

/-- The id-keyed album write: lengths and ids survive, and any
title+artist lookup still finds the row with the same id (updated in
place when it is the written one). -/
lemma albumWrite_find (l : List Album) (Al0 Alnew : Album)
    (hnd : (l.map Album.id).Nodup) (hmem : Al0 ∈ l)
    (ht : Alnew.title = Al0.title) (ha : Alnew.artist_id = Al0.artist_id)
    (ttl? : Option String) (aid : Nat) (Al : Album)
    (h : albumFind l ttl? aid = some Al) :
    albumFind (l.map (fun al => if al.id = Al0.id then Alnew else al)) ttl? aid
      = some (if Al.id = Al0.id then Alnew else Al) := by
  have hpt : ∀ al ∈ l,
      (fun al => decide (al.title = fixName ttl? "Unknown Album" ∧ al.artist_id = aid))
        (if al.id = Al0.id then Alnew else al)
      = (fun al => decide (al.title = fixName ttl? "Unknown Album" ∧ al.artist_id = aid)) al := by
    intro al hal
    by_cases hid : al.id = Al0.id
    · have : al = Al0 := eq_of_mem_key_unique Album.id l hnd al Al0 hal hmem hid
      subst this
      simp [ht, ha]
    · simp [hid]
  have := find?_map_pointwise (l := l)
    (g := fun al => if al.id = Al0.id then Alnew else al)
    (p := fun al => decide (al.title = fixName ttl? "Unknown Album" ∧ al.artist_id = aid))
    hpt
  unfold albumFind at h ⊢
  rw [this, h]
  rfl

lemma map_id_write {α : Type} (l : List α) (key : α → Nat) (i : Nat) (x : α)
    (hx : key x = i) :
    (l.map (fun y => if key y = i then x else y)).map key = l.map key := by
  rw [List.map_map]
  refine List.map_congr_left ?_
  intro y _
  by_cases h : key y = i
  · simp [Function.comp, h, hx]
  · simp [Function.comp, h]

lemma gca_of_found (db : CatalogDB) (nm' : Option String) (A : Artist)
    (h : artistFind db.artists nm' = some A) :
    get_or_create_artist db nm' none = (A, db) := by
  rw [gca_eq, h]

lemma gca_stage (db : CatalogDB) (nm' : Option String) :
    (∃ ext, (get_or_create_artist db nm' none).2.artists = db.artists ++ ext) ∧
    (get_or_create_artist db nm' none).2.albums = db.albums ∧
    (get_or_create_artist db nm' none).2.tracks = db.tracks ∧
    (get_or_create_artist db nm' none).2.next_album_id = db.next_album_id ∧
    (get_or_create_artist db nm' none).2.next_track_id = db.next_track_id := by
  rw [gca_eq]
  cases artistFind db.artists nm' with
  | some a => exact ⟨⟨[], by simp⟩, rfl, rfl, rfl, rfl⟩
  | none => exact ⟨⟨_, rfl⟩, rfl, rfl, rfl, rfl⟩

lemma gca_found_res (db : CatalogDB) (nm' : Option String) :
    artistFind (get_or_create_artist db nm' none).2.artists nm'
      = some (get_or_create_artist db nm' none).1 := by
  rw [gca_eq]
  cases hfa : artistFind db.artists nm' with
  | some a => exact hfa
  | none =>
    unfold artistFind at hfa ⊢
    dsimp only
    rw [find?_append_of_none _ hfa]
    simp

lemma goa_of_found (db : CatalogDB) (ttl' : Option String) (A : Artist)
    (g : Option String) (Al : Album)
    (h : albumFind db.albums ttl' A.id = some Al) :
    get_or_create_album db ttl' A none none none none g = (Al, db) := by
  rw [goa_eq, h]

lemma goa_stage (db : CatalogDB) (ttl' : Option String) (A : Artist) (g : Option String) :
    (get_or_create_album db ttl' A none none none none g).2.artists = db.artists ∧
    (get_or_create_album db ttl' A none none none none g).2.tracks = db.tracks ∧
    (get_or_create_album db ttl' A none none none none g).2.next_track_id
      = db.next_track_id ∧
    (((get_or_create_album db ttl' A none none none none g).2.albums = db.albums ∧
      (get_or_create_album db ttl' A none none none none g).2.next_album_id
        = db.next_album_id) ∨
     ((get_or_create_album db ttl' A none none none none g).2.albums
        = db.albums ++ [(get_or_create_album db ttl' A none none none none g).1] ∧
      (get_or_create_album db ttl' A none none none none g).1.id = db.next_album_id ∧
      (get_or_create_album db ttl' A none none none none g).2.next_album_id
        = db.next_album_id + 1)) := by
  rw [goa_eq]
  cases albumFind db.albums ttl' A.id with
  | some al => exact ⟨rfl, rfl, rfl, Or.inl ⟨rfl, rfl⟩⟩
  | none => exact ⟨rfl, rfl, rfl, Or.inr ⟨rfl, rfl, rfl⟩⟩

lemma goa_found_res (db : CatalogDB) (ttl' : Option String) (A : Artist)
    (g : Option String) :
    albumFind (get_or_create_album db ttl' A none none none none g).2.albums ttl' A.id
      = some (get_or_create_album db ttl' A none none none none g).1 ∧
    (get_or_create_album db ttl' A none none none none g).1
      ∈ (get_or_create_album db ttl' A none none none none g).2.albums ∧
    (get_or_create_album db ttl' A none none none none g).1.artist_id = A.id := by
  rw [goa_eq]
  cases hfa : albumFind db.albums ttl' A.id with
  | some al =>
    refine ⟨hfa, List.mem_of_find?_eq_some hfa, ?_⟩
    have := List.find?_some hfa
    simp at this
    exact this.2
  | none =>
    unfold albumFind at hfa ⊢
    dsimp only
    rw [find?_append_of_none _ hfa]
    simp

lemma trackPathUpd_id (tt? : Option String) (A : Artist) (Alb : Album)
    (path : String) (num : Option Int) (dn : Int) (du : Option Int) (told : Track) :
    (trackPathUpd tt? A Alb path num dn du told).id = told.id := by
  unfold trackPathUpd
  split_ifs <;> rfl

lemma trackPathUpd_fields (tt? : Option String) (A : Artist) (Alb : Album)
    (path : String) (num : Option Int) (dn : Int) (du : Option Int) (told : Track) :
    (trackPathUpd tt? A Alb path num dn du told).file_path = told.file_path ∧
    (trackPathUpd tt? A Alb path num dn du told).title = addTitle tt? path ∧
    (trackPathUpd tt? A Alb path num dn du told).track_number = num := by
  unfold trackPathUpd
  split_ifs <;> exact ⟨rfl, rfl, rfl⟩

lemma trackPathUpd_album (tt? : Option String) (A : Artist) (Alb : Album)
    (path : String) (num : Option Int) (dn : Int) (du : Option Int) (told : Track)
    (h : Alb.artist_id = A.id) :
    (trackPathUpd tt? A Alb path num dn du told).album_id = Alb.id := by
  unfold trackPathUpd
  rw [if_pos h]

lemma ata_stage (db : CatalogDB) (tt? : Option String) (A : Artist) (Alb : Album)
    (path : String) (num : Option Int) (dn : Int) (du : Option Int) :
    (add_track db tt? A Alb path none num dn du).2.artists = db.artists ∧
    (add_track db tt? A Alb path none num dn du).2.albums = db.albums ∧
    (add_track db tt? A Alb path none num dn du).2.next_album_id = db.next_album_id ∧
    ((∃ told t', (told ∈ db.tracks ∧ t'.id = told.id) ∧
        (add_track db tt? A Alb path none num dn du).2.tracks
          = db.tracks.map (fun t => if t.id = told.id then t' else t) ∧
        (add_track db tt? A Alb path none num dn du).2.next_track_id
          = db.next_track_id) ∨
     ((add_track db tt? A Alb path none num dn du).2.tracks
        = db.tracks ++ [(add_track db tt? A Alb path none num dn du).1] ∧
      (add_track db tt? A Alb path none num dn du).1.id = db.next_track_id ∧
      (add_track db tt? A Alb path none num dn du).2.next_track_id
        = db.next_track_id + 1)) := by
  rw [ata_eq]
  cases hp : db.tracks.find? (fun t => t.file_path = some path) with
  | some told =>
    dsimp only
    exact ⟨rfl, rfl, rfl, Or.inl ⟨told, trackPathUpd tt? A Alb path num dn du told,
      ⟨List.mem_of_find?_eq_some hp, trackPathUpd_id tt? A Alb path num dn du told⟩,
      rfl, rfl⟩⟩
  | none =>
    cases hq : db.tracks.find? (fun t => t.album_id = Alb.id
        ∧ t.track_number = num ∧ t.title = addTitle tt? path) with
    | some told =>
      dsimp only
      exact ⟨rfl, rfl, rfl, Or.inl ⟨told,
        { told with file_path := some path, is_downloaded := true },
        ⟨List.mem_of_find?_eq_some hq, rfl⟩, rfl, rfl⟩⟩
    | none =>
      exact ⟨rfl, rfl, rfl, Or.inr ⟨rfl, rfl, rfl⟩⟩

lemma processFile_skip (md : ScanFile → Option Metadata) (coverOf : String → Option String)
    (qa qu : Option String) (acc : CatalogDB × ScanStats) (f : ScanFile)
    (h : ¬ (audioExt f.filename = true ∧ (md f).isSome = true)) :
    (processFile md coverOf qa qu acc f).1 = acc.1 ∧
    (processFile md coverOf qa qu acc f).2.albums = acc.2.albums ∧
    (processFile md coverOf qa qu acc f).2.tracks = acc.2.tracks := by
  by_cases ha : audioExt f.filename = true
  · cases hmd : md f with
    | some m => exact absurd ⟨ha, by simp [hmd]⟩ h
    | none => simp [processFile, ha, hmd]
  · simp [processFile, ha]

lemma processFile_chain (md : ScanFile → Option Metadata) (coverOf : String → Option String)
    (qa qu : Option String) (db : CatalogDB) (s : ScanStats) (y : ScanFile)
    (m : Metadata) (ha : audioExt y.filename = true) (hmd : md y = some m) :
    ∃ A dbA Al0 dbB,
      get_or_create_artist db (fNames m y).artist_name none = (A, dbA) ∧
      get_or_create_album dbA (fNames m y).album_title A qa qu none none m.genre
        = (Al0, dbB) ∧
      (processFile md coverOf qa qu (db, s) y).1 =
        (add_track
          { dbB with albums := dbB.albums.map (fun al =>
              if al.id = Al0.id
              then (scanAlbumUpdate qa qu (coverOf y.root) y.root Al0).1 else al) }
          (some (fNames m y).track_title) A
          (scanAlbumUpdate qa qu (coverOf y.root) y.root Al0).1
          (scanPath y) none m.tracknumber (orElseInt m.discnumber 1) m.duration).2 ∧
      (processFile md coverOf qa qu (db, s) y).2 =
        { s with
            albums := s.albums +
              (if (scanAlbumUpdate qa qu (coverOf y.root) y.root Al0).2 then 1 else 0)
            tracks := s.tracks + 1 } := by
  refine ⟨(get_or_create_artist db (fNames m y).artist_name none).1,
    (get_or_create_artist db (fNames m y).artist_name none).2,
    (get_or_create_album (get_or_create_artist db (fNames m y).artist_name none).2
      (fNames m y).album_title (get_or_create_artist db (fNames m y).artist_name none).1
      qa qu none none m.genre).1,
    (get_or_create_album (get_or_create_artist db (fNames m y).artist_name none).2
      (fNames m y).album_title (get_or_create_artist db (fNames m y).artist_name none).1
      qa qu none none m.genre).2, rfl, rfl, ?_, ?_⟩
  · simp [processFile, ha, hmd, fNames]
  · simp [processFile, ha, hmd, fNames]

lemma nodup_append_fresh {α : Type} (l : List α) (key : α → Nat) (x : α) (n : Nat)
    (hnd : (l.map key).Nodup) (hb : ∀ a ∈ l, key a < n) (hx : key x = n) :
    ((l ++ [x]).map key).Nodup := by
  rw [List.map_append]
  refine List.Nodup.append hnd (List.nodup_singleton _) ?_
  intro a hal hax
  simp only [List.map_cons, List.map_nil, List.mem_singleton] at hax
  obtain ⟨b, hbmem, rfl⟩ := List.mem_map.mp hal
  have := hb b hbmem
  omega

lemma bound_of_map_id_eq {α : Type} (l l' : List α) (key : α → Nat) (n : Nat)
    (h : l'.map key = l.map key) (hb : ∀ a ∈ l, key a < n) : ∀ a ∈ l', key a < n := by
  intro a hal
  have hmem : key a ∈ l'.map key := List.mem_map_of_mem key hal
  rw [h] at hmem
  obtain ⟨b, hbmem, hkb⟩ := List.mem_map.mp hmem
  exact hkb ▸ hb b hbmem

/-- One scanner step (no qobuz linkage) keeps the id invariants and is
stable for every already-successful artist/album resolution: the artist
is still found unchanged and the album is still found with the same id,
downloadedness only ever turning on. -/
lemma step_main (md : ScanFile → Option Metadata) (coverOf : String → Option String)
    (db : CatalogDB) (s : ScanStats) (y : ScanFile) (hinv : IdInv db) :
    IdInv (processFile md coverOf none none (db, s) y).1 ∧
    ∀ nm ttl A Al, artistFind db.artists nm = some A →
      albumFind db.albums ttl A.id = some Al →
      artistFind (processFile md coverOf none none (db, s) y).1.artists nm = some A ∧
      ∃ Al', albumFind (processFile md coverOf none none (db, s) y).1.albums ttl A.id
          = some Al' ∧ Al'.id = Al.id ∧
        (Al.is_downloaded = true → Al'.is_downloaded = true) := by
  by_cases hproc : audioExt y.filename = true ∧ (md y).isSome = true
  case neg =>
    rw [(processFile_skip md coverOf none none (db, s) y hproc).1]
    exact ⟨hinv, fun nm ttl A Al hA hAl => ⟨hA, Al, hAl, rfl, fun h => h⟩⟩
  case pos =>
  obtain ⟨ha, hsome⟩ := hproc
  obtain ⟨m, hmd⟩ := Option.isSome_iff_exists.mp hsome
  obtain ⟨Ay, dbA, Al0, dbB, hgca, hgoa, hdb, -⟩ :=
    processFile_chain md coverOf none none db s y m ha hmd
  rw [hdb]
  have hstA := gca_stage db (fNames m y).artist_name
  rw [hgca] at hstA
  dsimp only at hstA
  obtain ⟨⟨ext, hext⟩, hAalb, hAtrk, hAnal, hAntr⟩ := hstA
  have hstB := goa_stage dbA (fNames m y).album_title Ay m.genre
  rw [hgoa] at hstB
  dsimp only at hstB
  obtain ⟨hBart, hBtrk, hBntr, hBalb⟩ := hstB
  have hmemAl0 : Al0 ∈ dbB.albums := by
    have h2 := (goa_found_res dbA (fNames m y).album_title Ay m.genre).2.1
    rw [hgoa] at h2
    exact h2
  have hndB : (dbB.albums.map Album.id).Nodup := by
    rcases id hBalb with ⟨heq, -⟩ | ⟨heq, hid0, -⟩
    · rw [heq, hAalb]; exact hinv.1
    · rw [heq, hAalb]
      exact nodup_append_fresh db.albums Album.id Al0 db.next_album_id hinv.1
        hinv.2.1 (by rw [hid0, hAnal])
  have hbndB : ∀ al ∈ dbB.albums, al.id < dbB.next_album_id := by
    rcases id hBalb with ⟨heq, hnx⟩ | ⟨heq, hid0, hnx⟩
    · rw [heq, hAalb, hnx, hAnal]; exact hinv.2.1
    · rw [heq, hAalb, hnx, hAnal]
      intro al hal
      rcases List.mem_append.mp hal with h1 | h1
      · have := hinv.2.1 al h1; omega
      · simp only [List.mem_singleton] at h1
        rw [h1]
        have h6 : Al0.id = db.next_album_id := by rw [hid0, hAnal]
        omega
  obtain ⟨hWid, hWti, hWar, hWdl⟩ :=
    scanAlbumUpdate_fields none none (coverOf y.root) y.root Al0
  set Alnew := (scanAlbumUpdate none none (coverOf y.root) y.root Al0).1
  set db3 : CatalogDB := { dbB with albums := dbB.albums.map (fun al =>
      if al.id = Al0.id then Alnew else al) }
  have e1 : db3.artists = dbB.artists := rfl
  have e2 : db3.albums = dbB.albums.map (fun al =>
      if al.id = Al0.id then Alnew else al) := rfl
  have e3 : db3.tracks = dbB.tracks := rfl
  have e4 : db3.next_album_id = dbB.next_album_id := rfl
  have e5 : db3.next_track_id = dbB.next_track_id := rfl
  obtain ⟨hTart, hTalb, hTnal, hTtrk⟩ := ata_stage db3 (some (fNames m y).track_title)
    Ay Alnew (scanPath y) m.tracknumber (orElseInt m.discnumber 1) m.duration
  have hids3 : db3.albums.map Album.id = dbB.albums.map Album.id := by
    rw [e2]
    exact map_id_write dbB.albums Album.id Al0.id Alnew hWid
  have htrkeq : db3.tracks = db.tracks := by rw [e3, hBtrk, hAtrk]
  have hntrkeq : db3.next_track_id = db.next_track_id := by rw [e5, hBntr, hAntr]
  constructor
  · -- the id invariants survive the step
    refine ⟨?_, ?_, ?_, ?_⟩
    · rw [hTalb, hids3]; exact hndB
    · rw [hTalb, hTnal, e4]
      exact bound_of_map_id_eq dbB.albums db3.albums Album.id dbB.next_album_id
        hids3 hbndB
    · rcases id hTtrk with ⟨told, t', ⟨htmem, htid⟩, htr, -⟩ | ⟨htr, hid2, -⟩
      · rw [htr, htrkeq]
        rw [map_id_write db.tracks Track.id told.id t' htid]
        exact hinv.2.2.1
      · rw [htr, htrkeq]
        refine nodup_append_fresh db.tracks Track.id _ db.next_track_id
          hinv.2.2.1 hinv.2.2.2 ?_
        rw [hid2, hntrkeq]
    · rcases id hTtrk with ⟨told, t', ⟨htmem, htid⟩, htr, hnx⟩ | ⟨htr, hid2, hnx⟩
      · rw [htr, htrkeq, hnx, hntrkeq]
        exact bound_of_map_id_eq db.tracks _ Track.id _
          (map_id_write db.tracks Track.id told.id t' htid) hinv.2.2.2
      · rw [htr, htrkeq, hnx, hntrkeq]
        intro t ht
        rcases List.mem_append.mp ht with h1 | h1
        · have := hinv.2.2.2 t h1; omega
        · simp only [List.mem_singleton] at h1
          rw [h1]
          have h7 : (add_track db3 (some (fNames m y).track_title) Ay Alnew (scanPath y)
              none m.tracknumber (orElseInt m.discnumber 1) m.duration).1.id
              = db.next_track_id := by rw [hid2, hntrkeq]
          omega
  · -- resolution stability
    intro nm ttl A Al hA hAl
    have hA1 : artistFind dbA.artists nm = some A := by
      rw [hext]; exact find?_append_some hA
    have hA2 : artistFind dbB.artists nm = some A := by rw [hBart]; exact hA1
    have hAl1 : albumFind dbA.albums ttl A.id = some Al := by rw [hAalb]; exact hAl
    have hAl2 : albumFind dbB.albums ttl A.id = some Al := by
      rcases id hBalb with ⟨heq, -⟩ | ⟨heq, -, -⟩
      · rw [heq]; exact hAl1
      · rw [heq]; exact find?_append_some hAl1
    have hAl3 : albumFind db3.albums ttl A.id
        = some (if Al.id = Al0.id then Alnew else Al) := by
      rw [e2]
      exact albumWrite_find dbB.albums Al0 Alnew hndB hmemAl0 hWti hWar ttl A.id Al hAl2
    refine ⟨?_, (if Al.id = Al0.id then Alnew else Al), ?_, ?_, ?_⟩
    · rw [hTart, e1]; exact hA2
    · rw [hTalb]; exact hAl3
    · by_cases hc : Al.id = Al0.id
      · rw [if_pos hc, hWid, hc]
      · rw [if_neg hc]
    · intro hdl
      by_cases hc : Al.id = Al0.id
      · rw [if_pos hc]; exact hWdl
      · rw [if_neg hc]; exact hdl

lemma ResolvesAlb_congr (db1 db2 : CatalogDB) (hart : db2.artists = db1.artists)
    (halb : db2.albums = db1.albums) (f : ScanFile) (mx : Metadata) (alid : Nat)
    (h : ResolvesAlb db1 f mx alid) : ResolvesAlb db2 f mx alid := by
  obtain ⟨A, hA, Al, hAl, hid⟩ := h
  exact ⟨A, by rw [hart]; exact hA, Al, by rw [halb]; exact hAl, hid⟩

lemma map_nodup_inj {α β : Type} {l : List α} {g : α → β} (hnd : (l.map g).Nodup)
    {x y : α} (hx : x ∈ l) (hy : y ∈ l) (h : g x = g y) : x = y :=
  List.inj_on_of_nodup_map hnd hx hy h

/-- A file's track witness survives the processing of any tree file:
the witness row is rewritten only by the path branch (same path, hence
the same file by path uniqueness, writing the same resolved triple) or
by the triple branch (which matches the triple and only moves the
path onto another file with the same resolved metadata). -/
lemma step_trackwit (md : ScanFile → Option Metadata) (coverOf : String → Option String)
    (fs : List ScanFile) (db : CatalogDB) (s : ScanStats) (y : ScanFile)
    (hinv : IdInv db) (hy : y ∈ fs) (hpaths : (fs.map scanPath).Nodup)
    (f : ScanFile) (m : Metadata) (alid : Nat)
    (hW : TrackWit md fs db f m alid) :
    TrackWit md fs (processFile md coverOf none none (db, s) y).1 f m alid := by
  obtain ⟨r, hrmem, hralb, hrnum, hrtitle, x, hxfs, mx, hmdx, httl, hnumx, hres, hrpath⟩ := hW
  obtain ⟨A', hA', Al', hAl', hidAl'⟩ := hres
  obtain ⟨hA'new, Al'', hAl'', hidAl'', -⟩ :=
    (step_main md coverOf db s y hinv).2 (fNames mx x).artist_name
      (fNames mx x).album_title A' Al' hA' hAl'
  have hresNew : ResolvesAlb (processFile md coverOf none none (db, s) y).1 x mx alid :=
    ⟨A', hA'new, Al'', hAl'', by rw [hidAl'', hidAl']⟩
  by_cases hproc : audioExt y.filename = true ∧ (md y).isSome = true
  case neg =>
    rw [(processFile_skip md coverOf none none (db, s) y hproc).1] at hresNew ⊢
    exact ⟨r, hrmem, hralb, hrnum, hrtitle, x, hxfs, mx, hmdx, httl, hnumx, hresNew, hrpath⟩
  case pos =>
  obtain ⟨ha, hsome⟩ := hproc
  obtain ⟨my, hmdy⟩ := Option.isSome_iff_exists.mp hsome
  obtain ⟨Ay, dbA, Al0, dbB, hgca, hgoa, hdb, -⟩ :=
    processFile_chain md coverOf none none db s y my ha hmdy
  rw [hdb] at hresNew ⊢
  have hstA := gca_stage db (fNames my y).artist_name
  rw [hgca] at hstA; dsimp only at hstA
  obtain ⟨-, hAalb, hAtrk, hAnal, -⟩ := hstA
  have hstB := goa_stage dbA (fNames my y).album_title Ay my.genre
  rw [hgoa] at hstB; dsimp only at hstB
  obtain ⟨hBart, hBtrk, -, hBalb⟩ := hstB
  have hfr := goa_found_res dbA (fNames my y).album_title Ay my.genre
  rw [hgoa] at hfr; dsimp only at hfr
  obtain ⟨hAlB, hmemAl0, hAl0art⟩ := hfr
  have hndB : (dbB.albums.map Album.id).Nodup := by
    rcases id hBalb with ⟨heq, -⟩ | ⟨heq, hid0, -⟩
    · rw [heq, hAalb]; exact hinv.1
    · rw [heq, hAalb]
      exact nodup_append_fresh db.albums Album.id Al0 db.next_album_id hinv.1
        hinv.2.1 (by rw [hid0, hAnal])
  obtain ⟨hWid, hWti, hWar, hWdl⟩ :=
    scanAlbumUpdate_fields none none (coverOf y.root) y.root Al0
  set Alnew := (scanAlbumUpdate none none (coverOf y.root) y.root Al0).1
  set db3 : CatalogDB := { dbB with albums := dbB.albums.map (fun al =>
      if al.id = Al0.id then Alnew else al) }
  have htrkeq : db3.tracks = db.tracks := by
    show dbB.tracks = db.tracks
    rw [hBtrk, hAtrk]
  obtain ⟨hTart, hTalb, -, -⟩ := ata_stage db3 (some (fNames my y).track_title)
    Ay Alnew (scanPath y) my.tracknumber (orElseInt my.discnumber 1) my.duration
  have hres3 : ResolvesAlb db3 x mx alid :=
    ResolvesAlb_congr _ db3 hTart.symm hTalb.symm x mx alid hresNew
  have hAyFind : artistFind db3.artists (fNames my y).artist_name = some Ay := by
    show artistFind dbB.artists (fNames my y).artist_name = some Ay
    rw [hBart]
    have hg := gca_found_res db (fNames my y).artist_name
    rw [hgca] at hg
    exact hg
  have hAlnewFind : albumFind db3.albums (fNames my y).album_title Ay.id
      = some Alnew := by
    show albumFind (dbB.albums.map (fun al => if al.id = Al0.id then Alnew else al))
      (fNames my y).album_title Ay.id = some Alnew
    have hw := albumWrite_find dbB.albums Al0 Alnew hndB hmemAl0 hWti hWar
      (fNames my y).album_title Ay.id Al0 hAlB
    simpa using hw
  have hresY : ResolvesAlb db3 y my Al0.id :=
    ⟨Ay, hAyFind, Alnew, hAlnewFind, hWid⟩
  rw [ata_eq]
  cases hp : db3.tracks.find? (fun t => t.file_path = some (scanPath y)) with
  | some told =>
    dsimp only
    have htoldmem : told ∈ db.tracks := htrkeq ▸ List.mem_of_find?_eq_some hp
    have htoldpath : told.file_path = some (scanPath y) := by
      have := List.find?_some hp
      simpa using this
    by_cases hid : r.id = told.id
    · -- the witness row is the written row: the writer is the witness file itself
      have hrt : r = told :=
        eq_of_mem_key_unique Track.id db.tracks hinv.2.2.1 r told hrmem htoldmem hid
      have hxy : x = y := by
        refine map_nodup_inj hpaths hxfs hy ?_
        have : some (scanPath x) = some (scanPath y) := by
          rw [← hrpath, hrt, htoldpath]
        exact Option.some.inj this
      have hmm : mx = my := by
        rw [hxy] at hmdx
        rw [hmdx] at hmdy
        exact Option.some.inj hmdy
      rw [hxy, hmm] at hA' hAl' httl hres3
      rw [hmm] at hnumx
      have h8 := (gca_of_found db (fNames my y).artist_name A' hA').symm.trans hgca
      injection h8 with h8a h8b
      have hAl'2 : albumFind dbA.albums (fNames my y).album_title Ay.id = some Al' := by
        rw [← h8b, ← h8a]; exact hAl'
      have h9 := (goa_of_found dbA (fNames my y).album_title Ay my.genre Al'
        hAl'2).symm.trans hgoa
      injection h9 with h9a h9b
      have halid : Al0.id = alid := by rw [← h9a, hidAl']
      obtain ⟨hPfp, hPti, hPnum⟩ := trackPathUpd_fields (some (fNames my y).track_title)
        Ay Alnew (scanPath y) my.tracknumber (orElseInt my.discnumber 1) my.duration told
      have hPalb := trackPathUpd_album (some (fNames my y).track_title)
        Ay Alnew (scanPath y) my.tracknumber (orElseInt my.discnumber 1) my.duration told
        (by rw [hWar, hAl0art])
      refine ⟨trackPathUpd (some (fNames my y).track_title) Ay Alnew (scanPath y)
        my.tracknumber (orElseInt my.discnumber 1) my.duration told, ?_, ?_, ?_, ?_,
        y, hy, my, hmdy, httl, hnumx, ?_, ?_⟩
      · show _ ∈ db3.tracks.map _
        exact List.mem_map.mpr ⟨told, htrkeq ▸ htoldmem, by rw [if_pos rfl]⟩
      · rw [hPalb, hWid, halid]
      · rw [hPnum, hnumx]
      · rw [hPti]; exact httl
      · exact ResolvesAlb_congr db3 _ rfl rfl y my alid (halid ▸ hresY)
      · rw [hPfp, htoldpath]
    · -- the witness row is untouched
      refine ⟨r, ?_, hralb, hrnum, hrtitle, x, hxfs, mx, hmdx, httl, hnumx, ?_, hrpath⟩
      · show _ ∈ db3.tracks.map _
        exact List.mem_map.mpr ⟨r, htrkeq ▸ hrmem, by rw [if_neg hid]⟩
      · exact ResolvesAlb_congr db3 _ rfl rfl x mx alid hres3
  | none =>
    cases hq : db3.tracks.find? (fun t => t.album_id = Alnew.id
        ∧ t.track_number = my.tracknumber
        ∧ t.title = addTitle (some (fNames my y).track_title) (scanPath y)) with
    | some told =>
      dsimp only
      have htoldmem : told ∈ db.tracks := htrkeq ▸ List.mem_of_find?_eq_some hq
      have htold3 : told.album_id = Alnew.id ∧ told.track_number = my.tracknumber
          ∧ told.title = addTitle (some (fNames my y).track_title) (scanPath y) := by
        have := List.find?_some hq
        simpa using this
      by_cases hid : r.id = told.id
      · -- the witness row is stolen: its triple is untouched, the new owner is y
        have hrt : r = told :=
          eq_of_mem_key_unique Track.id db.tracks hinv.2.2.1 r told hrmem htoldmem hid
        have halid : Al0.id = alid := by
          rw [← hWid, ← htold3.1, ← hrt, hralb]
        have httly : fTrackTitle my y = fTrackTitle m f := by
          show addTitle (some (fNames my y).track_title) (scanPath y) = _
          rw [← htold3.2.2, ← hrt, hrtitle]
        have hnumy : my.tracknumber = m.tracknumber := by
          rw [← htold3.2.1, ← hrt, hrnum]
        refine ⟨{ told with file_path := some (scanPath y), is_downloaded := true },
          ?_, ?_, ?_, ?_, y, hy, my, hmdy, httly, hnumy, ?_, rfl⟩
        · show _ ∈ db3.tracks.map _
          exact List.mem_map.mpr ⟨told, htrkeq ▸ htoldmem, by rw [if_pos rfl]⟩
        · show told.album_id = alid
          rw [← hrt, hralb]
        · show told.track_number = m.tracknumber
          rw [← hrt, hrnum]
        · show told.title = fTrackTitle m f
          rw [← hrt, hrtitle]
        · exact ResolvesAlb_congr db3 _ rfl rfl y my alid (halid ▸ hresY)
      · refine ⟨r, ?_, hralb, hrnum, hrtitle, x, hxfs, mx, hmdx, httl, hnumx, ?_, hrpath⟩
        · show _ ∈ db3.tracks.map _
          exact List.mem_map.mpr ⟨r, htrkeq ▸ hrmem, by rw [if_neg hid]⟩
        · exact ResolvesAlb_congr db3 _ rfl rfl x mx alid hres3
    | none =>
      dsimp only
      refine ⟨r, ?_, hralb, hrnum, hrtitle, x, hxfs, mx, hmdx, httl, hnumx, ?_, hrpath⟩
      · show _ ∈ db3.tracks ++ _
        exact List.mem_append_left _ (htrkeq ▸ hrmem)
      · exact ResolvesAlb_congr db3 _ rfl rfl x mx alid hres3

/-- Processing an audio file with readable-or-recoverable metadata
establishes it: afterwards its artist resolves, its album resolves
downloaded, and a track row carries its triple with its own path. -/
lemma step_estab (md : ScanFile → Option Metadata) (coverOf : String → Option String)
    (fs : List ScanFile) (db : CatalogDB) (s : ScanStats) (y : ScanFile)
    (hinv : IdInv db) (hy : y ∈ fs) (my : Metadata)
    (ha : audioExt y.filename = true) (hmdy : md y = some my) :
    Estab md fs (processFile md coverOf none none (db, s) y).1 y my := by
  obtain ⟨Ay, dbA, Al0, dbB, hgca, hgoa, hdb, -⟩ :=
    processFile_chain md coverOf none none db s y my ha hmdy
  rw [hdb]
  have hstA := gca_stage db (fNames my y).artist_name
  rw [hgca] at hstA; dsimp only at hstA
  obtain ⟨-, hAalb, hAtrk, hAnal, -⟩ := hstA
  have hstB := goa_stage dbA (fNames my y).album_title Ay my.genre
  rw [hgoa] at hstB; dsimp only at hstB
  obtain ⟨hBart, hBtrk, -, hBalb⟩ := hstB
  have hfr := goa_found_res dbA (fNames my y).album_title Ay my.genre
  rw [hgoa] at hfr; dsimp only at hfr
  obtain ⟨hAlB, hmemAl0, hAl0art⟩ := hfr
  have hndB : (dbB.albums.map Album.id).Nodup := by
    rcases id hBalb with ⟨heq, -⟩ | ⟨heq, hid0, -⟩
    · rw [heq, hAalb]; exact hinv.1
    · rw [heq, hAalb]
      exact nodup_append_fresh db.albums Album.id Al0 db.next_album_id hinv.1
        hinv.2.1 (by rw [hid0, hAnal])
  obtain ⟨hWid, hWti, hWar, hWdl⟩ :=
    scanAlbumUpdate_fields none none (coverOf y.root) y.root Al0
  set Alnew := (scanAlbumUpdate none none (coverOf y.root) y.root Al0).1
  set db3 : CatalogDB := { dbB with albums := dbB.albums.map (fun al =>
      if al.id = Al0.id then Alnew else al) }
  have htrkeq : db3.tracks = db.tracks := by
    show dbB.tracks = db.tracks
    rw [hBtrk, hAtrk]
  obtain ⟨hTart, hTalb, -, -⟩ := ata_stage db3 (some (fNames my y).track_title)
    Ay Alnew (scanPath y) my.tracknumber (orElseInt my.discnumber 1) my.duration
  have hAyFind : artistFind db3.artists (fNames my y).artist_name = some Ay := by
    show artistFind dbB.artists (fNames my y).artist_name = some Ay
    rw [hBart]
    have hg := gca_found_res db (fNames my y).artist_name
    rw [hgca] at hg
    exact hg
  have hAlnewFind : albumFind db3.albums (fNames my y).album_title Ay.id
      = some Alnew := by
    show albumFind (dbB.albums.map (fun al => if al.id = Al0.id then Alnew else al))
      (fNames my y).album_title Ay.id = some Alnew
    have hw := albumWrite_find dbB.albums Al0 Alnew hndB hmemAl0 hWti hWar
      (fNames my y).album_title Ay.id Al0 hAlB
    simpa using hw
  have hresYn : ResolvesAlb db3 y my Alnew.id :=
    ⟨Ay, hAyFind, Alnew, hAlnewFind, rfl⟩
  refine ⟨Ay, ?_, Alnew, ?_, hWdl, ?_⟩
  · rw [hTart]; exact hAyFind
  · rw [hTalb]; exact hAlnewFind
  · rw [ata_eq]
    cases hp : db3.tracks.find? (fun t => t.file_path = some (scanPath y)) with
    | some told =>
      dsimp only
      have htoldpath : told.file_path = some (scanPath y) := by
        have := List.find?_some hp
        simpa using this
      obtain ⟨hPfp, hPti, hPnum⟩ := trackPathUpd_fields (some (fNames my y).track_title)
        Ay Alnew (scanPath y) my.tracknumber (orElseInt my.discnumber 1) my.duration told
      have hPalb := trackPathUpd_album (some (fNames my y).track_title)
        Ay Alnew (scanPath y) my.tracknumber (orElseInt my.discnumber 1) my.duration told
        (by rw [hWar, hAl0art])
      refine ⟨trackPathUpd (some (fNames my y).track_title) Ay Alnew (scanPath y)
        my.tracknumber (orElseInt my.discnumber 1) my.duration told, ?_, hPalb, hPnum,
        hPti, y, hy, my, hmdy, rfl, rfl, ?_, ?_⟩
      · show _ ∈ db3.tracks.map _
        exact List.mem_map.mpr ⟨told, List.mem_of_find?_eq_some hp, by rw [if_pos rfl]⟩
      · exact ResolvesAlb_congr db3 _ rfl rfl y my Alnew.id hresYn
      · rw [hPfp, htoldpath]
    | none =>
      cases hq : db3.tracks.find? (fun t => t.album_id = Alnew.id
          ∧ t.track_number = my.tracknumber
          ∧ t.title = addTitle (some (fNames my y).track_title) (scanPath y)) with
      | some told =>
        dsimp only
        have htold3 : told.album_id = Alnew.id ∧ told.track_number = my.tracknumber
            ∧ told.title = addTitle (some (fNames my y).track_title) (scanPath y) := by
          have := List.find?_some hq
          simpa using this
        refine ⟨{ told with file_path := some (scanPath y), is_downloaded := true },
          ?_, htold3.1, htold3.2.1, htold3.2.2, y, hy, my, hmdy, rfl, rfl, ?_, rfl⟩
        · show _ ∈ db3.tracks.map _
          exact List.mem_map.mpr ⟨told, List.mem_of_find?_eq_some hq, by rw [if_pos rfl]⟩
        · exact ResolvesAlb_congr db3 _ rfl rfl y my Alnew.id hresYn
      | none =>
        dsimp only
        refine ⟨⟨db3.next_track_id, addTitle (some (fNames my y).track_title) (scanPath y),
          Ay.id, Alnew.id, none, my.tracknumber, orElseInt my.discnumber 1, my.duration,
          some (scanPath y), true⟩, ?_, rfl, rfl, rfl, y, hy, my, hmdy, rfl, rfl, ?_, rfl⟩
        · show _ ∈ db3.tracks ++ _
          exact List.mem_append_right _ (List.mem_singleton.mpr rfl)
        · exact ResolvesAlb_congr db3 _ rfl rfl y my Alnew.id hresYn

/-- Re-processing an established file: all lookups hit, so no artist,
album or track row is created and the `albums` statistic is untouched
(the `tracks` statistic still counts the file). -/
lemma step_second (md : ScanFile → Option Metadata) (coverOf : String → Option String)
    (fs : List ScanFile) (db : CatalogDB) (s : ScanStats) (y : ScanFile) (my : Metadata)
    (ha : audioExt y.filename = true) (hmdy : md y = some my)
    (hE : Estab md fs db y my) :
    (processFile md coverOf none none (db, s) y).1.artists = db.artists ∧
    (processFile md coverOf none none (db, s) y).1.albums.length = db.albums.length ∧
    (processFile md coverOf none none (db, s) y).1.tracks.length = db.tracks.length ∧
    (processFile md coverOf none none (db, s) y).2.albums = s.albums ∧
    (processFile md coverOf none none (db, s) y).2.tracks = s.tracks + 1 ∧
    (processFile md coverOf none none (db, s) y).2.errors = s.errors := by
  obtain ⟨A, hA, Al, hAl, hdl, hTW⟩ := hE
  obtain ⟨Ay, dbA, Al0, dbB, hgca, hgoa, hdb, hst⟩ :=
    processFile_chain md coverOf none none db s y my ha hmdy
  have h8 := (gca_of_found db (fNames my y).artist_name A hA).symm.trans hgca
  injection h8 with h8a h8b
  have hAl2 : albumFind dbA.albums (fNames my y).album_title Ay.id = some Al := by
    rw [← h8b, ← h8a]; exact hAl
  have h9 := (goa_of_found dbA (fNames my y).album_title Ay my.genre Al
    hAl2).symm.trans hgoa
  injection h9 with h9a h9b
  have hdbeq : db = dbB := h8b.trans h9b
  have hdl0 : Al0.is_downloaded = true := h9a ▸ hdl
  have hru2 : (scanAlbumUpdate none none (coverOf y.root) y.root Al0).2 = false :=
    scanAlbumUpdate_no_stat (coverOf y.root) y.root Al0 hdl0
  obtain ⟨hWid, hWti, hWar, hWdl⟩ :=
    scanAlbumUpdate_fields none none (coverOf y.root) y.root Al0
  set Alnew := (scanAlbumUpdate none none (coverOf y.root) y.root Al0).1
  set db3 : CatalogDB := { dbB with albums := dbB.albums.map (fun al =>
      if al.id = Al0.id then Alnew else al) }
  have htrkeq : db3.tracks = db.tracks := by
    show dbB.tracks = db.tracks
    rw [← hdbeq]
  obtain ⟨hTart, hTalb, -, -⟩ := ata_stage db3 (some (fNames my y).track_title)
    Ay Alnew (scanPath y) my.tracknumber (orElseInt my.discnumber 1) my.duration
  obtain ⟨r, hrmem, hralb, hrnum, hrtitle, -⟩ := hTW
  have hrtrip : r.album_id = Alnew.id ∧ r.track_number = my.tracknumber
      ∧ r.title = addTitle (some (fNames my y).track_title) (scanPath y) := by
    refine ⟨?_, hrnum, hrtitle⟩
    rw [hralb, h9a, ← hWid]
  have hlen : (add_track db3 (some (fNames my y).track_title) Ay Alnew (scanPath y)
      none my.tracknumber (orElseInt my.discnumber 1) my.duration).2.tracks.length
      = db3.tracks.length := by
    rw [ata_eq]
    cases hp : db3.tracks.find? (fun t => t.file_path = some (scanPath y)) with
    | some told => simp
    | none =>
      cases hq : db3.tracks.find? (fun t => t.album_id = Alnew.id
          ∧ t.track_number = my.tracknumber
          ∧ t.title = addTitle (some (fNames my y).track_title) (scanPath y)) with
      | some told => simp
      | none =>
        exfalso
        have hnone := List.find?_eq_none.mp hq r (htrkeq ▸ hrmem)
        simp only [decide_eq_true_eq, not_and] at hnone
        exact hnone hrtrip.1 hrtrip.2.1 hrtrip.2.2
  refine ⟨?_, ?_, ?_, ?_, ?_, ?_⟩
  · rw [hdb, hTart]
    show dbB.artists = db.artists
    rw [← hdbeq]
  · rw [hdb, hTalb]
    show (dbB.albums.map (fun al => if al.id = Al0.id then Alnew else al)).length
      = db.albums.length
    rw [List.length_map, ← hdbeq]
  · rw [hdb, hlen, htrkeq]
  · rw [hst]
    show s.albums + (if (scanAlbumUpdate none none (coverOf y.root) y.root Al0).2
      then 1 else 0) = s.albums
    rw [hru2]
    simp
  · rw [hst]
  · rw [hst]

lemma step_estab_pres (md : ScanFile → Option Metadata) (coverOf : String → Option String)
    (fs : List ScanFile) (db : CatalogDB) (s : ScanStats) (y : ScanFile)
    (hinv : IdInv db) (hy : y ∈ fs) (hpaths : (fs.map scanPath).Nodup)
    (f : ScanFile) (m : Metadata) (hE : Estab md fs db f m) :
    Estab md fs (processFile md coverOf none none (db, s) y).1 f m := by
  obtain ⟨A, hA, Al, hAl, hdl, hTW⟩ := hE
  obtain ⟨hA', Al', hAl', hid', hdl'⟩ :=
    (step_main md coverOf db s y hinv).2 (fNames m f).artist_name
      (fNames m f).album_title A Al hA hAl
  have hTW' := step_trackwit md coverOf fs db s y hinv hy hpaths f m Al.id hTW
  exact ⟨A, hA', Al', hAl', hdl' hdl, by rw [hid']; exact hTW'⟩

/-- First run postcondition: folding the scanner over any sublist of the
tree keeps the id invariants, preserves establishment, and leaves every
processed file of the sublist established. -/
lemma scan_fold_estab (md : ScanFile → Option Metadata) (coverOf : String → Option String)
    (fs : List ScanFile) (hpaths : (fs.map scanPath).Nodup) :
    ∀ (l : List ScanFile), l ⊆ fs → ∀ (db : CatalogDB) (s : ScanStats), IdInv db →
      IdInv (l.foldl (processFile md coverOf none none) (db, s)).1 ∧
      (∀ f m, f ∈ fs → md f = some m → Estab md fs db f m →
        Estab md fs (l.foldl (processFile md coverOf none none) (db, s)).1 f m) ∧
      (∀ f ∈ l, audioExt f.filename = true → ∀ m, md f = some m →
        Estab md fs (l.foldl (processFile md coverOf none none) (db, s)).1 f m) := by
  intro l
  induction l with
  | nil =>
    intro hsub db s hinv
    exact ⟨hinv, fun f m _ _ hE => hE, fun f hf => absurd hf (List.not_mem_nil f)⟩
  | cons y l ih =>
    intro hsub db s hinv
    obtain ⟨hy, hsubl⟩ := List.cons_subset.mp hsub
    cases hacc1 : processFile md coverOf none none (db, s) y with
    | mk db1 s1 =>
    have hinv1 : IdInv db1 := by
      have h := (step_main md coverOf db s y hinv).1
      rw [hacc1] at h
      exact h
    obtain ⟨ihInv, ihPres, ihEst⟩ := ih hsubl db1 s1 hinv1
    have hfold : (y :: l).foldl (processFile md coverOf none none) (db, s)
        = l.foldl (processFile md coverOf none none) (db1, s1) := by
      show l.foldl _ (processFile md coverOf none none (db, s) y) = _
      rw [hacc1]
    rw [hfold]
    refine ⟨ihInv, ?_, ?_⟩
    · intro f m hf hmd hE
      refine ihPres f m hf hmd ?_
      have h := step_estab_pres md coverOf fs db s y hinv hy hpaths f m hE
      rw [hacc1] at h
      exact h
    · intro f hf haud m hmd
      rcases List.mem_cons.mp hf with rfl | hfl
      · refine ihPres f m hy hmd ?_
        have h := step_estab md coverOf fs db s f hinv hy m haud hmd
        rw [hacc1] at h
        exact h
      · exact ihEst f hfl haud m hmd

/-- Second run: with every processed file established, the fold keeps
the artist list, the album and track row counts, and the `albums`
statistic, while `tracks` counts exactly the processed files. -/
lemma scan_fold_second (md : ScanFile → Option Metadata) (coverOf : String → Option String)
    (fs : List ScanFile) (hpaths : (fs.map scanPath).Nodup) :
    ∀ (l : List ScanFile), l ⊆ fs → ∀ (db : CatalogDB) (s : ScanStats), IdInv db →
      (∀ f m, f ∈ fs → audioExt f.filename = true → md f = some m →
        Estab md fs db f m) →
      (l.foldl (processFile md coverOf none none) (db, s)).1.artists = db.artists ∧
      (l.foldl (processFile md coverOf none none) (db, s)).1.albums.length
        = db.albums.length ∧
      (l.foldl (processFile md coverOf none none) (db, s)).1.tracks.length
        = db.tracks.length ∧
      (l.foldl (processFile md coverOf none none) (db, s)).2.albums = s.albums ∧
      (l.foldl (processFile md coverOf none none) (db, s)).2.tracks
        = s.tracks + l.countP (fun f => audioExt f.filename && (md f).isSome) := by
  intro l
  induction l with
  | nil =>
    intro _ db s _ _
    exact ⟨rfl, rfl, rfl, rfl, by simp⟩
  | cons y l ih =>
    intro hsub db s hinv hall
    obtain ⟨hy, hsubl⟩ := List.cons_subset.mp hsub
    cases hacc1 : processFile md coverOf none none (db, s) y with
    | mk db1 s1 =>
    have hfold : (y :: l).foldl (processFile md coverOf none none) (db, s)
        = l.foldl (processFile md coverOf none none) (db1, s1) := by
      show l.foldl _ (processFile md coverOf none none (db, s) y) = _
      rw [hacc1]
    rw [hfold]
    have hinv1 : IdInv db1 := by
      have h := (step_main md coverOf db s y hinv).1
      rw [hacc1] at h
      exact h
    have hall1 : ∀ f m, f ∈ fs → audioExt f.filename = true → md f = some m →
        Estab md fs db1 f m := by
      intro f m hf haud hmd
      have h := step_estab_pres md coverOf fs db s y hinv hy hpaths f m
        (hall f m hf haud hmd)
      rw [hacc1] at h
      exact h
    obtain ⟨ih1, ih2, ih3, ih4, ih5⟩ := ih hsubl db1 s1 hinv1 hall1
    by_cases hproc : audioExt y.filename = true ∧ (md y).isSome = true
    · obtain ⟨ha, hsome⟩ := hproc
      obtain ⟨my, hmdy⟩ := Option.isSome_iff_exists.mp hsome
      have hsec := step_second md coverOf fs db s y my ha hmdy (hall y my hy ha hmdy)
      rw [hacc1] at hsec
      obtain ⟨hart, halb, htrk, hsalb, hstrk, -⟩ := hsec
      have hpy : (audioExt y.filename && (md y).isSome) = true := by
        rw [ha, hsome]
        rfl
      refine ⟨ih1.trans hart, ih2.trans halb, ih3.trans htrk, ih4.trans hsalb, ?_⟩
      rw [ih5, hstrk, List.countP_cons]
      simp only [hpy, if_pos]
      omega
    · have hskip := processFile_skip md coverOf none none (db, s) y hproc
      rw [hacc1] at hskip
      dsimp only at hskip
      obtain ⟨h1, h2, h3⟩ := hskip
      have hpy : (audioExt y.filename && (md y).isSome) = false := by
        cases haud : audioExt y.filename <;> cases hs : (md y).isSome <;> simp_all
      refine ⟨?_, ?_, ?_, ?_, ?_⟩
      · rw [ih1, h1]
      · rw [ih2, h1]
      · rw [ih3, h1]
      · rw [ih4, h2]
      · rw [ih5, h3, List.countP_cons]
        simp only [hpy, Bool.false_eq_true, if_false]
        omega

/-- C2 (amended): under path uniqueness of the walked tree and the
autoincrement id invariants of the starting catalog, a second
`scan_directory` over the unchanged tree (no qobuz linkage) reports an
`albums` statistic of `0` and leaves the artist list and the album and
track row counts unchanged — but its `tracks` statistic counts every
successfully processed audio file again (it counts processed files, not
rows added), so it is the number of audio files rather than `0`. -/
theorem C2_scan_idempotent (md : ScanFile → Option Metadata)
    (coverOf : String → Option String) (db0 : CatalogDB) (fs : List ScanFile)
    (hpaths : (fs.map scanPath).Nodup)
    (halbnd : (db0.albums.map Album.id).Nodup)
    (halbbd : ∀ al ∈ db0.albums, al.id < db0.next_album_id)
    (htrknd : (db0.tracks.map Track.id).Nodup)
    (htrkbd : ∀ t ∈ db0.tracks, t.id < db0.next_track_id) :
    (scan_directory md coverOf none none
        (scan_directory md coverOf none none db0 fs).1 fs).2.albums = 0 ∧
    (scan_directory md coverOf none none
        (scan_directory md coverOf none none db0 fs).1 fs).1.artists
      = (scan_directory md coverOf none none db0 fs).1.artists ∧
    (scan_directory md coverOf none none
        (scan_directory md coverOf none none db0 fs).1 fs).1.albums.length
      = (scan_directory md coverOf none none db0 fs).1.albums.length ∧
    (scan_directory md coverOf none none
        (scan_directory md coverOf none none db0 fs).1 fs).1.tracks.length
      = (scan_directory md coverOf none none db0 fs).1.tracks.length ∧
    (scan_directory md coverOf none none
        (scan_directory md coverOf none none db0 fs).1 fs).2.tracks
      = fs.countP (fun f => audioExt f.filename && (md f).isSome) := by
  have hinv0 : IdInv db0 := ⟨halbnd, halbbd, htrknd, htrkbd⟩
  obtain ⟨hinv1, -, hEst⟩ := scan_fold_estab md coverOf fs hpaths fs
    (fun a ha => ha) db0 ⟨0, 0, 0⟩ hinv0
  have hall : ∀ f m, f ∈ fs → audioExt f.filename = true → md f = some m →
      Estab md fs (scan_directory md coverOf none none db0 fs).1 f m := by
    intro f m hf haud hmd
    exact hEst f hf haud m hmd
  obtain ⟨g1, g2, g3, g4, g5⟩ := scan_fold_second md coverOf fs hpaths fs
    (fun a ha => ha) (scan_directory md coverOf none none db0 fs).1 ⟨0, 0, 0⟩
    hinv1 hall
  exact ⟨g4, g1, g2, g3, g5.trans (Nat.zero_add _)⟩

def c2_md : ScanFile → Option Metadata :=
  fun _ => some ⟨some "T", some "A", some "B", none, some 1, some 1, none⟩

def c2_fs : List ScanFile := [⟨"/m/A - B", "01. t.mp3"⟩]

def c2_db0 : CatalogDB := ⟨[], [], [], 1, 1, 1⟩

/-- C2 counterexample to the literal claim: on a one-file tree scanned
into an empty catalog, the first run reports `albums = 1, tracks = 1`,
and the second run over the unchanged tree reports `tracks = 1`, not
`0` (the `tracks` statistic counts processed files, not added rows) —
while `albums` is `0` as claimed. -/
theorem C2_scan_idempotent_counterexample :
    (scan_directory c2_md (fun _ => none) none none c2_db0 c2_fs).2
      = ⟨1, 1, 0⟩ ∧
    (scan_directory c2_md (fun _ => none) none none
        (scan_directory c2_md (fun _ => none) none none c2_db0 c2_fs).1 c2_fs).2.tracks
      = 1 ∧
    (scan_directory c2_md (fun _ => none) none none
        (scan_directory c2_md (fun _ => none) none none c2_db0 c2_fs).1 c2_fs).2.albums
      = 0 := by
  exact ⟨rfl, rfl, rfl⟩

theorem C2_scan_idempotent_witness :
    ((c2_fs.map scanPath).Nodup ∧ (c2_db0.albums.map Album.id).Nodup ∧
      (∀ al ∈ c2_db0.albums, al.id < c2_db0.next_album_id) ∧
      (c2_db0.tracks.map Track.id).Nodup ∧
      (∀ t ∈ c2_db0.tracks, t.id < c2_db0.next_track_id)) ∧
    ((scan_directory c2_md (fun _ => none) none none
        (scan_directory c2_md (fun _ => none) none none c2_db0 c2_fs).1 c2_fs).2.albums
      = 0 ∧
    (scan_directory c2_md (fun _ => none) none none
        (scan_directory c2_md (fun _ => none) none none c2_db0 c2_fs).1 c2_fs).1.artists
      = (scan_directory c2_md (fun _ => none) none none c2_db0 c2_fs).1.artists ∧
    (scan_directory c2_md (fun _ => none) none none
        (scan_directory c2_md (fun _ => none) none none c2_db0 c2_fs).1 c2_fs).1.albums.length
      = (scan_directory c2_md (fun _ => none) none none c2_db0 c2_fs).1.albums.length ∧
    (scan_directory c2_md (fun _ => none) none none
        (scan_directory c2_md (fun _ => none) none none c2_db0 c2_fs).1 c2_fs).1.tracks.length
      = (scan_directory c2_md (fun _ => none) none none c2_db0 c2_fs).1.tracks.length ∧
    (scan_directory c2_md (fun _ => none) none none
        (scan_directory c2_md (fun _ => none) none none c2_db0 c2_fs).1 c2_fs).2.tracks
      = c2_fs.countP (fun f => audioExt f.filename && (c2_md f).isSome)) :=
  ⟨⟨by decide, by decide, by decide, by decide, by decide⟩,
   C2_scan_idempotent c2_md (fun _ => none) c2_db0 c2_fs (by decide) (by decide)
     (by decide) (by decide) (by decide)⟩
